import Mathlib

/-!
Shallow embedding of the RoomEnv2 simulation engine (`room_env/envs/room2.py`):
the room graph, the four typed entity kinds (static / independent / dependent /
agent), the attachment subsystem, hidden-state assembly, observation and
question generation, and the reset/step episode controller.

Python's floating-point probabilities are modelled as exact fractions
(`Frac`, an unnormalized `num/den` pair, kept executable so that concrete
runs reduce in the kernel).  Python's single process-wide seeded PRNG is
modelled as an explicit stream `ρ : Nat → Frac` of unit-interval draws
together with a cursor position that every stochastic operation advances,
mirroring the fixed order in which the code consumes the random stream.
The write-only archive lists of the Python class (`hidden_global_states_all`,
`observations_all`, `answer_all`, `info_all`) are not carried in the state.
-/

/-- Exact fraction `num / den` (denominators are kept positive by
construction in all configurations; no normalization is performed). -/
structure Frac where
  num : Int
  den : Nat
deriving DecidableEq, Repr

instance : Inhabited Frac := ⟨⟨0, 1⟩⟩

def Frac.add (a b : Frac) : Frac :=
  ⟨a.num * (b.den : Int) + b.num * (a.den : Int), a.den * b.den⟩

def Frac.sub (a b : Frac) : Frac :=
  ⟨a.num * (b.den : Int) - b.num * (a.den : Int), a.den * b.den⟩

def Frac.mul (a b : Frac) : Frac :=
  ⟨a.num * b.num, a.den * b.den⟩

/-- Strict order by cross-multiplication (valid for positive denominators). -/
def Frac.ltB (a b : Frac) : Bool :=
  a.num * (b.den : Int) < b.num * (a.den : Int)

def Frac.leB (a b : Frac) : Bool :=
  a.num * (b.den : Int) ≤ b.num * (a.den : Int)

def Frac.absF (a : Frac) : Frac := ⟨(a.num.natAbs : Int), a.den⟩

/-- Truncation to a natural number, as Python's `int(...)` on a nonnegative float. -/
def Frac.floorNat (a : Frac) : Nat := (a.num / (a.den : Int)).toNat

def Frac.sumList (l : List Frac) : Frac := l.foldl Frac.add ⟨0, 1⟩

/-- Tolerance used by every probability-mass validation (`EPSILON = 1e-3`). -/
def EPSILON : Frac := ⟨1, 1000⟩

/-- A probability table keyed by name, in insertion order (a Python dict). -/
abbrev PDist := List (String × Frac)

/-- Shape of an entity's `transition_probs` entry in the configuration:
`null` for static objects and the agent, a room → action-distribution table
for independent objects, an independent-name → probability table for
dependent objects. -/
inductive TransCfg where
  | null : TransCfg
  | indep (t : List (String × PDist)) : TransCfg
  | dep (t : PDist) : TransCfg
deriving DecidableEq, Repr

/-- A room: four neighbor slots, each another room's name or `"wall"`. -/
structure Room where
  name : String
  north : String
  east : String
  south : String
  west : String
deriving DecidableEq, Repr

/-- Raw room configuration entry, before `Room.__init__`'s validation. -/
structure RoomSpec where
  name : String
  north : String
  east : String
  south : String
  west : String
deriving DecidableEq, Repr

/-- One simulated entity.  All four kinds share this shape (`Object` and its
subclasses): `attached` is the independent object's list of riding dependent
names, `attachedTo` is the dependent object's at-most-one independent name. -/
structure Obj where
  name : String
  type : String
  init_probs : PDist
  transition_probs : TransCfg
  question_prob : Frac
  location : String
  history : List String
  attached : List String
  attachedTo : Option String
deriving DecidableEq, Repr

instance : Inhabited Obj :=
  ⟨⟨"", "", [], TransCfg.null, ⟨0, 1⟩, "", [], [], none⟩⟩

/-- A timestamped relational fact `[head, relation, tail, time]`. -/
structure Quad where
  head : String
  rel : String
  tail : String
  time : Nat
deriving DecidableEq, Repr

/-- The answer bundle stored for the posed question. -/
structure AnswerSet where
  current : String
  previous : Option String
deriving DecidableEq, Repr

/-- What `get_observations_and_question` returns. -/
structure Obs where
  room : List Quad
  question : Option Quad
deriving DecidableEq, Repr

/-- The `info` dict returned by `step`. -/
structure StepInfo where
  answers : Option AnswerSet
  timestamp : Nat
deriving DecidableEq, Repr

/-- Failure conditions surfaced by the engine (Python exceptions). -/
inductive EnvError where
  | configError (msg : String)
  | invalidAction (a : String)
  | missingRoom (r : String)
  | missingKey (k : String)
  | noAnswer
  | unknownRelation
  | noAgent
  | emptyCandidates
deriving DecidableEq, Repr

/- ### Random draws (`random.choices`, `random.random`, `random.choice`,
`random.shuffle`), driven by the explicit stream. -/

/-- Consume one unit-interval value from the stream. -/
def draw (ρ : Nat → Frac) (p : Nat) : Frac × Nat := (ρ p, p + 1)

/-- Cumulative-weight selection as in `random.choices`: pick the first item
whose cumulative weight exceeds the target, clamped to the last item. -/
def pickWeighted {α : Type} [Inhabited α] : List (α × Frac) → Frac → α
  | [], _ => default
  | [(a, _)], _ => a
  | (a, w) :: rest, target =>
      if Frac.ltB target w then a else pickWeighted rest (Frac.sub target w)

/-- `random.choices(items, weights)[0]`: one draw scaled by the total weight. -/
def sampleWeighted {α : Type} [Inhabited α] (items : List (α × Frac))
    (ρ : Nat → Frac) (p : Nat) : α × Nat :=
  let (u, p₁) := draw ρ p
  (pickWeighted items (Frac.mul u (Frac.sumList (items.map Prod.snd))), p₁)

/-- `random.random() < prob`. -/
def bernoulliDraw (prob : Frac) (ρ : Nat → Frac) (p : Nat) : Bool × Nat :=
  let (u, p₁) := draw ρ p
  (Frac.ltB u prob, p₁)

/-- `random.choice(l)`: one draw mapped to an index of `l`. -/
def uniformPick {α : Type} [Inhabited α] (l : List α) (ρ : Nat → Frac) (p : Nat) :
    α × Nat :=
  let (u, p₁) := draw ρ p
  (l.getD (min (Frac.floorNat (Frac.mul u ⟨(l.length : Int), 1⟩)) (l.length - 1))
    default, p₁)

/- ### Movement (`Object.move_with_action`) -/

def validActions : List String := ["north", "east", "south", "west", "stay"]

/-- Dictionary lookup `rooms[current_location]` (a `KeyError` when absent). -/
def roomLookup (rooms : List Room) (name : String) : Except EnvError Room :=
  match rooms.find? (fun r => r.name == name) with
  | some r => Except.ok r
  | none => Except.error (EnvError.missingRoom name)

/-- Shared move-resolution rule: validate the action token, look up the
candidate neighbor (`stay` keeps the current room), and bounce off walls. -/
def move_with_action (action : String) (rooms : List Room)
    (current_location : String) : Except EnvError String :=
  if action ∈ validActions then
    match (if action = "stay" then Except.ok current_location
           else match roomLookup rooms current_location with
                | Except.error e => Except.error e
                | Except.ok room =>
                    Except.ok (if action = "north" then room.north
                               else if action = "east" then room.east
                               else if action = "south" then room.south
                               else room.west)) with
    | Except.error e => Except.error e
    | Except.ok next =>
        Except.ok (if next ≠ "wall" then next else current_location)
  else Except.error (EnvError.invalidAction action)

/-- The neighbor of a room in a given direction (used to state what the
move-resolution rule computes). -/
def neighborIn (room : Room) (direction : String) : String :=
  if direction = "north" then room.north
  else if direction = "east" then room.east
  else if direction = "south" then room.south
  else room.west

/-- Claim C3: for every room graph, current room, and action among the five
recognized tokens, the shared move-resolution rule returns the room-graph
neighbor of the current room in that direction when that neighbor is not the
wall sentinel, and returns the current room unchanged (without raising) when
the neighbor is the wall sentinel or the action is `stay`. -/
theorem move_with_action_resolution (rooms : List Room) (cur action : String)
    (room : Room) (hact : action ∈ validActions)
    (hlook : roomLookup rooms cur = Except.ok room) :
    move_with_action action rooms cur =
      Except.ok (if action = "stay" then cur
                 else if neighborIn room action ≠ "wall" then neighborIn room action
                 else cur) := by
  by_cases hstay : action = "stay"
  · subst hstay
    simp [move_with_action, validActions, ite_self]
  · simp only [move_with_action, if_pos hact, if_neg hstay, hlook, neighborIn]

/-- Claim C9: for every input action that is not one of the five recognized
tokens, the shared move-resolution rule fails with the invalid-action error. -/
theorem move_with_action_invalid (rooms : List Room) (cur action : String)
    (h : action ∉ validActions) :
    move_with_action action rooms cur =
      Except.error (EnvError.invalidAction action) := by
  simp [move_with_action, h]

def roomA : Room := ⟨"a", "b", "wall", "wall", "wall"⟩

def roomB : Room := ⟨"b", "wall", "wall", "a", "wall"⟩

def roomsW : List Room := [roomA, roomB]

/-- Witness for claim C3: an agent at a room whose `west` neighbor is a wall,
issuing `"west"`, remains in the same room; `"north"` moves it to `b`. -/
theorem move_with_action_resolution_witness :
    (("west" ∈ validActions ∧ roomLookup roomsW "a" = Except.ok roomA) ∧
      move_with_action "west" roomsW "a" =
        Except.ok (if "west" = "stay" then "a"
                   else if neighborIn roomA "west" ≠ "wall" then neighborIn roomA "west"
                   else "a")) ∧
    move_with_action "north" roomsW "a" =
      Except.ok (if "north" = "stay" then "a"
                 else if neighborIn roomA "north" ≠ "wall" then neighborIn roomA "north"
                 else "a") :=
  ⟨⟨⟨by decide, by rfl⟩,
     move_with_action_resolution roomsW "a" "west" roomA (by decide) (by rfl)⟩,
   move_with_action_resolution roomsW "a" "north" roomA (by decide) (by rfl)⟩

/-- Witness for claim C9: the unrecognized action `"jump"` fails with the
invalid-action error. -/
theorem move_with_action_invalid_witness :
    ("jump" ∉ validActions) ∧
    move_with_action "jump" roomsW "a" =
      Except.error (EnvError.invalidAction "jump") :=
  ⟨by decide, move_with_action_invalid roomsW "a" "jump" (by decide)⟩

/- ### Entity creation (`Object.__init__` and subclasses) -/

/-- One entity's slice of the configuration: its `init_probs`,
`transition_probs` and `question_prob` entries, keyed by its name. -/
structure ObjCfg where
  name : String
  init_probs : PDist
  transition_probs : TransCfg
  question_prob : Frac
deriving DecidableEq, Repr

/-- Shared `Object.__init__`: validate the initial distribution and the
question probability, then sample the initial location. -/
def mkObject (name ty : String) (init_probs : PDist) (trans : TransCfg)
    (question_prob : Frac) (ρ : Nat → Frac) (p : Nat) : Except EnvError Obj × Nat :=
  if Frac.leB EPSILON
      (Frac.absF (Frac.sub (Frac.sumList (init_probs.map Prod.snd)) ⟨1, 1⟩)) then
    (Except.error (EnvError.configError "init probs sum"), p)
  else if !(Frac.leB ⟨0, 1⟩ question_prob && Frac.leB question_prob ⟨1, 1⟩) then
    (Except.error (EnvError.configError "question_prob range"), p)
  else
    let (loc, p₁) := sampleWeighted init_probs ρ p
    (Except.ok { name := name, type := ty, init_probs := init_probs,
                 transition_probs := trans, question_prob := question_prob,
                 location := loc, history := [], attached := [], attachedTo := none },
     p₁)

/-- `StaticObject.__init__`: transition table must be null. -/
def mkStatic (c : ObjCfg) (ρ : Nat → Frac) (p : Nat) : Except EnvError Obj × Nat :=
  match mkObject c.name "static" c.init_probs c.transition_probs c.question_prob ρ p with
  | (Except.error e, p₁) => (Except.error e, p₁)
  | (Except.ok o, p₁) =>
    if c.transition_probs = TransCfg.null then (Except.ok o, p₁)
    else (Except.error (EnvError.configError "Static objects do not move."), p₁)

/-- Per-room action distributions of an independent object must each sum to 1. -/
def innerSumsOk (t : List (String × PDist)) : Bool :=
  t.all (fun rt =>
    !(Frac.leB EPSILON (Frac.absF (Frac.sub (Frac.sumList (rt.2.map Prod.snd)) ⟨1, 1⟩))))

/-- `IndepdentObject.__init__`. -/
def mkIndep (c : ObjCfg) (ρ : Nat → Frac) (p : Nat) : Except EnvError Obj × Nat :=
  match mkObject c.name "independent" c.init_probs c.transition_probs c.question_prob ρ p with
  | (Except.error e, p₁) => (Except.error e, p₁)
  | (Except.ok o, p₁) =>
    match c.transition_probs with
    | TransCfg.indep t =>
      if innerSumsOk t then (Except.ok o, p₁)
      else (Except.error (EnvError.configError "independent transition sum"), p₁)
    | _ => (Except.error (EnvError.configError "independent transition shape"), p₁)

/-- `Agent.__init__`: question weight must be (almost) zero, transition null. -/
def mkAgent (c : ObjCfg) (ρ : Nat → Frac) (p : Nat) : Except EnvError Obj × Nat :=
  if !(Frac.leB (Frac.absF c.question_prob) EPSILON) then
    (Except.error (EnvError.configError "Agents are not questionable."), p)
  else
    match mkObject c.name "agent" c.init_probs c.transition_probs c.question_prob ρ p with
    | (Except.error e, p₁) => (Except.error e, p₁)
    | (Except.ok o, p₁) =>
      if c.transition_probs = TransCfg.null then (Except.ok o, p₁)
      else (Except.error (EnvError.configError "Agent objects do not move by itself."), p₁)

/- ### Attachment (`DependentObject.attach`) -/

def depTransList (o : Obj) : PDist :=
  match o.transition_probs with
  | TransCfg.dep t => t
  | _ => []

/-- Inner loop of `attach`: for every configured key equal to this independent
object's name, draw a Bernoulli trial and record the object's index on success. -/
def depTrials (ioName : String) (idx : Nat) :
    PDist → (Nat → Frac) → Nat → List Nat × Nat
  | [], _, p => ([], p)
  | (key, prob) :: rest, ρ, p =>
    if ioName = key then
      let (b, p₁) := bernoulliDraw prob ρ p
      let (l, p₂) := depTrials ioName idx rest ρ p₁
      (if b then idx :: l else l, p₂)
    else depTrials ioName idx rest ρ p

/-- Outer loop of `attach`: scan the independent objects (by index) that are
co-located with the dependent object and collect the successful trials. -/
def collectPossible (dep : Obj) :
    List Obj → Nat → (Nat → Frac) → Nat → List Nat × Nat
  | [], _, _, p => ([], p)
  | io :: rest, idx, ρ, p =>
    if io.location = dep.location then
      let (l₁, p₁) := depTrials io.name idx (depTransList dep) ρ p
      let (l₂, p₂) := collectPossible dep rest (idx + 1) ρ p₁
      (l₁ ++ l₂, p₂)
    else collectPossible dep rest (idx + 1) ρ p

/-- `DependentObject.attach`: reset the pointer, collect successful trials,
pick one uniformly, and register the attachment on both sides. -/
def attachOne (dep : Obj) (ios : List Obj) (ρ : Nat → Frac) (p : Nat) :
    Obj × List Obj × Nat :=
  let dep₀ := { dep with attachedTo := none }
  let (possible, p₁) := collectPossible dep₀ ios 0 ρ p
  if possible = [] then (dep₀, ios, p₁)
  else
    let (idx, p₂) := uniformPick possible ρ p₁
    match ios[idx]? with
    | none => (dep₀, ios, p₂)
    | some io =>
      let io₁ := if dep₀.name ∈ io.attached then io
                 else { io with attached := io.attached ++ [dep₀.name] }
      ({ dep₀ with attachedTo := some io.name }, ios.set idx io₁, p₂)

/-- `DependentObject.__init__`: validate the attachment probabilities and
attach once at creation. -/
def mkDep (c : ObjCfg) (ios : List Obj) (ρ : Nat → Frac) (p : Nat) :
    Except EnvError (Obj × List Obj) × Nat :=
  match mkObject c.name "dependent" c.init_probs c.transition_probs c.question_prob ρ p with
  | (Except.error e, p₁) => (Except.error e, p₁)
  | (Except.ok o, p₁) =>
    match c.transition_probs with
    | TransCfg.dep t =>
      if t.all (fun kv => Frac.ltB kv.2 (Frac.add ⟨1, 1⟩ EPSILON)) then
        let (o₁, ios₁, p₂) := attachOne o ios ρ p₁
        (Except.ok (o₁, ios₁), p₂)
      else (Except.error (EnvError.configError "dependent transition prob"), p₁)
    | _ => (Except.error (EnvError.configError "dependent transition shape"), p₁)

/- ### Population creation (`_create_rooms` / `_create_objects`) -/

/-- `Room.__init__`: a duplicated non-wall neighbor is a malformed layout. -/
def mkRoom (s : RoomSpec) : Except EnvError Room :=
  if ([s.north, s.east, s.south, s.west].filter (fun x => x != "wall")).Nodup then
    Except.ok ⟨s.name, s.north, s.east, s.south, s.west⟩
  else Except.error (EnvError.configError "room layout wrong.")

def createRooms : List RoomSpec → Except EnvError (List Room)
  | [] => Except.ok []
  | s :: rest =>
    match mkRoom s with
    | Except.error e => Except.error e
    | Except.ok r =>
      match createRooms rest with
      | Except.error e => Except.error e
      | Except.ok rs => Except.ok (r :: rs)

def createStatics : List ObjCfg → (Nat → Frac) → Nat → Except EnvError (List Obj) × Nat
  | [], _, p => (Except.ok [], p)
  | c :: rest, ρ, p =>
    match mkStatic c ρ p with
    | (Except.error e, p₁) => (Except.error e, p₁)
    | (Except.ok o, p₁) =>
      match createStatics rest ρ p₁ with
      | (Except.error e, p₂) => (Except.error e, p₂)
      | (Except.ok os, p₂) => (Except.ok (o :: os), p₂)

def createIndeps : List ObjCfg → (Nat → Frac) → Nat → Except EnvError (List Obj) × Nat
  | [], _, p => (Except.ok [], p)
  | c :: rest, ρ, p =>
    match mkIndep c ρ p with
    | (Except.error e, p₁) => (Except.error e, p₁)
    | (Except.ok o, p₁) =>
      match createIndeps rest ρ p₁ with
      | (Except.error e, p₂) => (Except.error e, p₂)
      | (Except.ok os, p₂) => (Except.ok (o :: os), p₂)

/-- Dependent objects are created after all independent objects and attach to
them at creation, so the independent list is threaded through. -/
def createDeps : List ObjCfg → List Obj → (Nat → Frac) → Nat →
    Except EnvError (List Obj × List Obj) × Nat
  | [], ios, _, p => (Except.ok ([], ios), p)
  | c :: rest, ios, ρ, p =>
    match mkDep c ios ρ p with
    | (Except.error e, p₁) => (Except.error e, p₁)
    | (Except.ok (o, ios₁), p₁) =>
      match createDeps rest ios₁ ρ p₁ with
      | (Except.error e, p₂) => (Except.error e, p₂)
      | (Except.ok (os, ios₂), p₂) => (Except.ok (o :: os, ios₂), p₂)

def createAgents : List ObjCfg → (Nat → Frac) → Nat → Except EnvError (List Obj) × Nat
  | [], _, p => (Except.ok [], p)
  | c :: rest, ρ, p =>
    match mkAgent c ρ p with
    | (Except.error e, p₁) => (Except.error e, p₁)
    | (Except.ok o, p₁) =>
      match createAgents rest ρ p₁ with
      | (Except.error e, p₂) => (Except.error e, p₂)
      | (Except.ok os, p₂) => (Except.ok (o :: os), p₂)

/-- Construction configuration of the environment (see `RoomEnv2.__init__`). -/
structure EnvConfig where
  room_config : List RoomSpec
  static_config : List ObjCfg
  independent_config : List ObjCfg
  dependent_config : List ObjCfg
  agent_config : List ObjCfg
  question_prob : Frac
  terminates_at : Nat
  randomize_observations : Bool
  reward_correct : Int
  reward_wrong : Int
  reward_part : Int
  make_everything_static : Bool
deriving DecidableEq, Repr

/-- `_create_objects`: statics, independents, dependents (attaching to the
independents), agents, in order, then the question-probability sanity check. -/
def createObjects (cfg : EnvConfig) (ρ : Nat → Frac) (p : Nat) :
    Except EnvError (List Obj × List Obj × List Obj × List Obj) × Nat :=
  match createStatics cfg.static_config ρ p with
  | (Except.error e, p₁) => (Except.error e, p₁)
  | (Except.ok statics, p₁) =>
    match createIndeps cfg.independent_config ρ p₁ with
    | (Except.error e, p₂) => (Except.error e, p₂)
    | (Except.ok indeps, p₂) =>
      match createDeps cfg.dependent_config indeps ρ p₂ with
      | (Except.error e, p₃) => (Except.error e, p₃)
      | (Except.ok (deps, indeps₁), p₃) =>
        match createAgents cfg.agent_config ρ p₃ with
        | (Except.error e, p₄) => (Except.error e, p₄)
        | (Except.ok agents, p₄) =>
          if Frac.leB (Frac.absF (Frac.sub (Frac.sumList
               ((statics ++ indeps₁ ++ deps ++ agents).map Obj.question_prob)) ⟨1, 1⟩))
               EPSILON
          then (Except.ok (statics, indeps₁, deps, agents), p₄)
          else (Except.error (EnvError.configError "question prob sum"), p₄)

/- ### World dynamics (`IndepdentObject.move`, the per-step phases) -/

/-- `IndepdentObject.move`: sample an action from the per-room distribution,
resolve it, drag every attached dependent to the new location, and detach. -/
def ioMove (io : Obj) (rooms : List Room) (deps : List Obj) (ρ : Nat → Frac) (p : Nat) :
    Except EnvError (Obj × List Obj) × Nat :=
  match (match io.transition_probs with
         | TransCfg.indep t => t.lookup io.location
         | _ => none) with
  | none => (Except.error (EnvError.missingKey io.location), p)
  | some dist =>
    let (action, p₁) := sampleWeighted dist ρ p
    match move_with_action action rooms io.location with
    | Except.error e => (Except.error e, p₁)
    | Except.ok newLoc =>
      (Except.ok ({ io with location := newLoc, attached := [] },
        deps.map (fun d => if d.name ∈ io.attached
                           then { d with location := newLoc, attachedTo := none }
                           else d)), p₁)

/-- `for obj in self.objects["independent"]: obj.move()`. -/
def movePhase (rooms : List Room) :
    List Obj → List Obj → (Nat → Frac) → Nat →
    Except EnvError (List Obj × List Obj) × Nat
  | [], deps, _, p => (Except.ok ([], deps), p)
  | io :: rest, deps, ρ, p =>
    match ioMove io rooms deps ρ p with
    | (Except.error e, p₁) => (Except.error e, p₁)
    | (Except.ok (io₁, deps₁), p₁) =>
      match movePhase rooms rest deps₁ ρ p₁ with
      | (Except.error e, p₂) => (Except.error e, p₂)
      | (Except.ok (ios₁, deps₂), p₂) => (Except.ok (io₁ :: ios₁, deps₂), p₂)

/-- `for obj in self.objects["dependent"]: obj.attach()`. -/
def attachPhase :
    List Obj → List Obj → (Nat → Frac) → Nat → List Obj × List Obj × Nat
  | ios, [], _, p => (ios, [], p)
  | ios, d :: ds, ρ, p =>
    let (d₁, ios₁, p₁) := attachOne d ios ρ p
    let (ios₂, ds₁, p₂) := attachPhase ios₁ ds ρ p₁
    (ios₂, d₁ :: ds₁, p₂)

/- ### Hidden state and observations -/

/-- The full mutable state of the environment between calls. -/
structure EnvState where
  rooms : List Room
  statics : List Obj
  indeps : List Obj
  deps : List Obj
  agents : List Obj
  current_time : Nat
  question : Option Quad
  answer : Option AnswerSet
deriving DecidableEq, Repr

def atlocQuads (objs : List Obj) (t : Nat) : List Quad :=
  objs.map (fun o => ⟨o.name, "atlocation", o.location, t⟩)

def roomQuads (rooms : List Room) (t : Nat) : List Quad :=
  rooms.flatMap (fun r => [⟨r.name, "north", r.north, t⟩, ⟨r.name, "east", r.east, t⟩,
                        ⟨r.name, "south", r.south, t⟩, ⟨r.name, "west", r.west, t⟩])

/-- `_compute_hidden_global_state`: one `atlocation` quadruple per entity in
kind-priority order (agent, static, independent, dependent), then four
adjacency quadruples per room, all tagged with the current time. -/
def computeHiddenGlobalState (st : EnvState) : List Quad :=
  atlocQuads st.agents st.current_time ++ atlocQuads st.statics st.current_time ++
  atlocQuads st.indeps st.current_time ++ atlocQuads st.deps st.current_time ++
  roomQuads st.rooms st.current_time

def dirRels : List String := ["north", "east", "south", "west"]

/-- The filtering loop of `get_observations_and_question`: keep `atlocation`
facts at the agent's room and adjacency facts anchored at the agent's room;
an unknown relation raises. -/
def visibleLoop (agentLoc : String) : List Quad → Except EnvError (List Quad)
  | [] => Except.ok []
  | q :: rest =>
    if q.rel = "atlocation" then
      match visibleLoop agentLoc rest with
      | Except.error e => Except.error e
      | Except.ok tl => Except.ok (if q.tail = agentLoc then q :: tl else tl)
    else if q.rel ∈ dirRels then
      match visibleLoop agentLoc rest with
      | Except.error e => Except.error e
      | Except.ok tl => Except.ok (if q.head = agentLoc then q :: tl else tl)
    else Except.error EnvError.unknownRelation

/-- Agent-visibility of one quadruple, as the specification words it. -/
def visiblePred (agentLoc : String) (q : Quad) : Bool :=
  (q.rel == "atlocation" && q.tail == agentLoc) ||
  (dirRels.contains q.rel && q.head == agentLoc)

/-- Backward scan `for previous_location in history[::-1]: ... break`. -/
def scanPrevious (current : String) : List String → Option String
  | [] => none
  | x :: rest => if x ≠ current then some x else scanPrevious current rest

def findPrevious (history : List String) (current : String) : Option String :=
  scanPrevious current history.reverse

/-- The answer bundle built for the chosen entity. -/
def mkAnswer (o : Obj) : AnswerSet :=
  { current := o.location, previous := findPrevious o.history o.location }

/-- Question candidates with weights, in the dict order of `self.objects`
(static, independent, dependent, agent). -/
def questionCandidates (st : EnvState) : List (String × Frac) :=
  (st.statics ++ st.indeps ++ st.deps ++ st.agents).map (fun o => (o.name, o.question_prob))

/-- `_find_object_by_string`. -/
def findObjectByString (st : EnvState) (s : String) : Option Obj :=
  (st.statics ++ st.indeps ++ st.deps ++ st.agents).find? (fun o => o.name == s)

def listSwap {α : Type} (l : List α) (i j : Nat) : List α :=
  match l[i]?, l[j]? with
  | some a, some b => (l.set i b).set j a
  | _, _ => l

/-- Fisher–Yates shuffle driven by the stream (`random.shuffle`). -/
def shuffleAux : List Quad → Nat → (Nat → Frac) → Nat → List Quad × Nat
  | l, 0, _, p => (l, p)
  | l, i + 1, ρ, p =>
    let (u, p₁) := draw ρ p
    let j := min (Frac.floorNat (Frac.mul u ⟨((i + 2 : Nat) : Int), 1⟩)) (i + 1)
    shuffleAux (listSwap l (i + 1) j) i ρ p₁

def shuffleList (l : List Quad) (ρ : Nat → Frac) (p : Nat) : List Quad × Nat :=
  match l.length with
  | 0 => (l, p)
  | n + 1 => shuffleAux l n ρ p

/-- `get_observations_and_question`: filter the hidden state to the
agent-visible subset, sample the question subject by weight, maybe suppress
the question, build the answer, and optionally shuffle the observation. -/
def get_observations_and_question (qprob : Frac) (randomize : Bool) (st : EnvState)
    (ρ : Nat → Frac) (p : Nat) : Except EnvError (Obs × EnvState) × Nat :=
  match st.agents with
  | [] => (Except.error EnvError.noAgent, p)
  | agent :: _ =>
    match visibleLoop agent.location (computeHiddenGlobalState st) with
    | Except.error e => (Except.error e, p)
    | Except.ok obsRoom =>
      if questionCandidates st = [] then (Except.error EnvError.emptyCandidates, p)
      else
        let (name, p₁) := sampleWeighted (questionCandidates st) ρ p
        match findObjectByString st name with
        | none => (Except.error (EnvError.missingKey name), p₁)
        | some objChosen =>
          let (u, p₂) := draw ρ p₁
          let qa : Option Quad × Option AnswerSet :=
            if Frac.ltB qprob u then (none, none)
            else (some ⟨objChosen.name, "atlocation", "?", st.current_time⟩,
                  some (mkAnswer objChosen))
          let (obsRoom₁, p₃) :=
            if randomize then shuffleList obsRoom ρ p₂ else (obsRoom, p₂)
          (Except.ok ({ room := obsRoom₁, question := qa.1 },
                      { st with question := qa.1, answer := qa.2 }), p₃)

/- ### Episode controller (`reset` / `step`) -/

/-- History append performed at the end of `reset` and of every `step`. -/
def pushHistory (o : Obj) : Obj := { o with history := o.history ++ [o.location] }

/-- Answer scoring at the top of `step`: exact match to `current` is CORRECT,
match to `previous` is PARTIAL, otherwise WRONG; with no stored answer the
subscription `self.answer["current"]` raises. -/
def scoreAnswer (ans : Option AnswerSet) (correct wrong part : Int)
    (action_qa : String) : Except EnvError Int :=
  match ans with
  | none => Except.error EnvError.noAnswer
  | some a =>
    Except.ok (if action_qa = a.current then correct
               else if a.previous = some action_qa then part
               else wrong)

/-- Everything one `step` call returns. -/
structure StepOut where
  obs : Obs
  reward : Int
  done : Bool
  truncated : Bool
  info : StepInfo
  state : EnvState
deriving DecidableEq, Repr

/-- `RoomEnv2.step`: score the answer, advance the world (unless everything
is static), move the agent, determine termination, record info, advance time,
append histories, and produce the next observation/question pair. -/
def stepE (cfg : EnvConfig) (st : EnvState) (action_qa action_explore : String)
    (ρ : Nat → Frac) (p : Nat) : Except EnvError StepOut × Nat :=
  match scoreAnswer st.answer cfg.reward_correct cfg.reward_wrong cfg.reward_part
      action_qa with
  | Except.error e => (Except.error e, p)
  | Except.ok reward =>
    match (if cfg.make_everything_static then (Except.ok (st.indeps, st.deps), p)
           else match movePhase st.rooms st.indeps st.deps ρ p with
                | (Except.error e, p₁) => (Except.error e, p₁)
                | (Except.ok (ios, deps₁), p₁) =>
                  let (ios₁, deps₂, p₂) := attachPhase ios deps₁ ρ p₁
                  (Except.ok (ios₁, deps₂), p₂)) with
    | (Except.error e, p₁) => (Except.error e, p₁)
    | (Except.ok (indeps₁, deps₁), p₁) =>
      match st.agents with
      | [] => (Except.error EnvError.noAgent, p₁)
      | agent :: restAgents =>
        match move_with_action action_explore st.rooms agent.location with
        | Except.error e => (Except.error e, p₁)
        | Except.ok newLoc =>
          let done := st.current_time == cfg.terminates_at
          let info : StepInfo := { answers := st.answer, timestamp := st.current_time }
          let st₁ : EnvState := { st with
            statics := st.statics.map pushHistory,
            indeps := indeps₁.map pushHistory,
            deps := deps₁.map pushHistory,
            agents := ({ agent with location := newLoc } :: restAgents).map pushHistory,
            current_time := st.current_time + 1 }
          match get_observations_and_question cfg.question_prob
              cfg.randomize_observations st₁ ρ p₁ with
          | (Except.error e, p₂) => (Except.error e, p₂)
          | (Except.ok (obs, st₂), p₂) =>
            (Except.ok { obs := obs, reward := reward, done := done,
                         truncated := false, info := info, state := st₂ }, p₂)

/-- `RoomEnv2.reset`: rebuild rooms and objects, set time to 0, append the
initial location to every history, and produce the first observation. -/
def resetE (cfg : EnvConfig) (ρ : Nat → Frac) (p : Nat) :
    Except EnvError (Obs × EnvState) × Nat :=
  match createRooms cfg.room_config with
  | Except.error e => (Except.error e, p)
  | Except.ok rooms =>
    match createObjects cfg ρ p with
    | (Except.error e, p₁) => (Except.error e, p₁)
    | (Except.ok (statics, indeps, deps, agents), p₁) =>
      let st₀ : EnvState := {
        rooms := rooms,
        statics := statics.map pushHistory,
        indeps := indeps.map pushHistory,
        deps := deps.map pushHistory,
        agents := agents.map pushHistory,
        current_time := 0,
        question := none,
        answer := none }
      get_observations_and_question cfg.question_prob cfg.randomize_observations st₀ ρ p₁

/- ### Observation filtering (claim C6) -/

lemma visibleLoop_eq_filter (agentLoc : String) (l : List Quad)
    (h : ∀ q ∈ l, q.rel = "atlocation" ∨ q.rel ∈ dirRels) :
    visibleLoop agentLoc l = Except.ok (l.filter (visiblePred agentLoc)) := by
  induction l with
  | nil => simp [visibleLoop]
  | cons q rest ih =>
    have hq := h q (by simp)
    have hrest : ∀ x ∈ rest, x.rel = "atlocation" ∨ x.rel ∈ dirRels :=
      fun x hx => h x (by simp [hx])
    have hdna : ("atlocation" : String) ∉ dirRels := by decide
    rcases hq with hat | hdir
    · have hnd : dirRels.contains q.rel = false := by
        rw [hat]; decide
      by_cases ht : q.tail = agentLoc
      · simp [visibleLoop, hat, ih hrest, List.filter_cons, visiblePred, hnd, ht]
      · simp [visibleLoop, hat, ih hrest, List.filter_cons, visiblePred, hnd, ht, hdna]
    · have hna : q.rel ≠ "atlocation" := by
        intro heq; rw [heq] at hdir; exact absurd hdir (by decide)
      have hc : dirRels.contains q.rel = true := by
        exact List.elem_eq_true_of_mem hdir
      by_cases hh : q.head = agentLoc
      · simp [visibleLoop, hna, hdir, ih hrest, List.filter_cons, visiblePred, hc, hh]
      · simp [visibleLoop, hna, hdir, ih hrest, List.filter_cons, visiblePred, hc, hh]

lemma hidden_rels (st : EnvState) :
    ∀ q ∈ computeHiddenGlobalState st, q.rel = "atlocation" ∨ q.rel ∈ dirRels := by
  intro q hq
  simp only [computeHiddenGlobalState, atlocQuads, roomQuads, List.mem_append,
    List.mem_map, List.mem_flatMap] at hq
  rcases hq with ((((⟨o, _, rfl⟩ | ⟨o, _, rfl⟩) | ⟨o, _, rfl⟩) | ⟨o, _, rfl⟩) |
    ⟨r, _, hr⟩)
  · left; rfl
  · left; rfl
  · left; rfl
  · left; rfl
  · simp only [List.mem_cons, List.not_mem_nil, or_false] at hr
    rcases hr with rfl | rfl | rfl | rfl
    · exact Or.inr (show ("north" : String) ∈ dirRels by decide)
    · exact Or.inr (show ("east" : String) ∈ dirRels by decide)
    · exact Or.inr (show ("south" : String) ∈ dirRels by decide)
    · exact Or.inr (show ("west" : String) ∈ dirRels by decide)

/-- Claim C6: for every hidden global state and every agent location, the
observation list assembled by the filtering loop (before any shuffling)
consists of exactly the `atlocation` quadruples whose tail is the agent's
room and the adjacency quadruples whose head is the agent's room, in the
assembler's order. -/
theorem observations_are_visible_filter (agentLoc : String) (st : EnvState) :
    visibleLoop agentLoc (computeHiddenGlobalState st) =
      Except.ok ((computeHiddenGlobalState st).filter (visiblePred agentLoc)) :=
  visibleLoop_eq_filter agentLoc (computeHiddenGlobalState st) (hidden_rels st)

/- ### Previous-location answers (claim C7) -/

lemma scanPrevious_eq_none (c : String) (l : List String) :
    scanPrevious c l = none ↔ ∀ x ∈ l, x = c := by
  induction l with
  | nil => simp [scanPrevious]
  | cons a t ih =>
    by_cases h : a = c
    · subst h
      simp [scanPrevious, ih]
    · simp [scanPrevious, h]

lemma scanPrevious_eq_some (c : String) (l : List String) (x : String) :
    scanPrevious c l = some x ↔
      x ≠ c ∧ ∃ u v, l = u ++ x :: v ∧ ∀ y ∈ u, y = c := by
  induction l with
  | nil =>
    simp only [scanPrevious]
    constructor
    · intro h; cases h
    · rintro ⟨-, u, v, h, -⟩
      exact absurd h (by simp)
  | cons a t ih =>
    by_cases h : a = c
    · subst h
      rw [scanPrevious, if_neg (by simp), ih]
      constructor
      · rintro ⟨hx, u, v, ht, hall⟩
        exact ⟨hx, a :: u, v, by rw [ht]; rfl, by
          intro y hy
          rcases List.mem_cons.mp hy with rfl | hy
          · rfl
          · exact hall y hy⟩
      · rintro ⟨hx, u, v, ht, hall⟩
        cases u with
        | nil =>
          simp only [List.nil_append, List.cons.injEq] at ht
          exact absurd ht.1.symm hx
        | cons b u' =>
          simp only [List.cons_append, List.cons.injEq] at ht
          exact ⟨hx, u', v, ht.2, fun y hy => hall y (List.mem_cons.mpr (Or.inr hy))⟩
    · rw [scanPrevious, if_pos h]
      constructor
      · intro hs
        have hax : a = x := by
          injection hs
        subst hax
        exact ⟨h, [], t, rfl, by simp⟩
      · rintro ⟨hx, u, v, ht, hall⟩
        cases u with
        | nil =>
          simp only [List.nil_append, List.cons.injEq] at ht
          rw [ht.1]
        | cons b u' =>
          simp only [List.cons_append, List.cons.injEq] at ht
          exact absurd (hall a (by rw [ht.1]; exact List.mem_cons_self b u')) h

/-- Claim C7: for every question subject entity, the `previous` component of
the answer equals the most recent entry of the entity's history that differs
from its current location (there is a decomposition of the history whose
suffix after that entry consists only of the current location), and is `none`
exactly when no history entry differs from the current location. -/
theorem answer_previous_characterization (o : Obj) :
    ((mkAnswer o).previous = none ↔ ∀ x ∈ o.history, x = o.location) ∧
    (∀ prev, (mkAnswer o).previous = some prev ↔
      (prev ≠ o.location ∧
        ∃ l₁ l₂, o.history = l₁ ++ prev :: l₂ ∧ ∀ x ∈ l₂, x = o.location)) := by
  constructor
  · rw [mkAnswer]
    simp only [findPrevious, scanPrevious_eq_none, List.mem_reverse]
  · intro prev
    rw [mkAnswer]
    simp only [findPrevious, scanPrevious_eq_some]
    constructor
    · rintro ⟨hne, u, v, heq, hall⟩
      refine ⟨hne, v.reverse, u.reverse, ?_, fun y hy => hall y (by simpa using hy)⟩
      have := congrArg List.reverse heq
      simpa [List.reverse_append] using this
    · rintro ⟨hne, l₁, l₂, heq, hall⟩
      refine ⟨hne, l₂.reverse, l₁.reverse, ?_, fun y hy => hall y (by simpa using hy)⟩
      rw [heq]
      simp [List.reverse_append]

/- ### Step inversion (claims C1, C2, C10) -/

lemma stepE_ok_inv (cfg : EnvConfig) (st : EnvState) (aqa aex : String)
    (ρ : Nat → Frac) (p : Nat) (out : StepOut) (p₁ : Nat)
    (h : stepE cfg st aqa aex ρ p = (Except.ok out, p₁)) :
    ∃ a, st.answer = some a ∧
      out.reward = (if aqa = a.current then cfg.reward_correct
                    else if a.previous = some aqa then cfg.reward_part
                    else cfg.reward_wrong) ∧
      out.done = (st.current_time == cfg.terminates_at) ∧
      out.truncated = false := by
  cases hans : st.answer with
  | none =>
    rw [stepE, hans] at h
    simp [scoreAnswer] at h
  | some a =>
    refine ⟨a, rfl, ?_⟩
    rw [stepE, hans] at h
    simp only [scoreAnswer] at h
    repeat' split at h
    all_goals simp_all
    all_goals
      obtain ⟨h1, -⟩ := h
      subst h1
      exact ⟨rfl, rfl, rfl⟩

/-- Claim C1: whenever `step` completes, the reward it returns is the CORRECT
reward when the agent's answer equals the stored answer's `current` location,
the PARTIAL reward when it instead equals the `previous` location, and the
WRONG reward otherwise. -/
theorem step_reward_cases (cfg : EnvConfig) (st : EnvState) (aqa aex : String)
    (ρ : Nat → Frac) (p : Nat) (out : StepOut) (p₁ : Nat)
    (h : stepE cfg st aqa aex ρ p = (Except.ok out, p₁)) :
    ∃ a, st.answer = some a ∧
      (aqa = a.current → out.reward = cfg.reward_correct) ∧
      (aqa ≠ a.current → a.previous = some aqa → out.reward = cfg.reward_part) ∧
      (aqa ≠ a.current → a.previous ≠ some aqa → out.reward = cfg.reward_wrong) := by
  obtain ⟨a, ha, hr, -, -⟩ := stepE_ok_inv cfg st aqa aex ρ p out p₁ h
  refine ⟨a, ha, ?_, ?_, ?_⟩
  · intro hc; rw [hr, if_pos hc]
  · intro hc hp; rw [hr, if_neg hc, if_pos hp]
  · intro hc hp; rw [hr, if_neg hc, if_neg hp]

/-- Claim C2: whenever `step` completes, the returned `done` flag is true
exactly when the pre-increment timestep equals the configured
`terminates_at`, and the returned `truncated` flag is false. -/
theorem step_done_truncated (cfg : EnvConfig) (st : EnvState) (aqa aex : String)
    (ρ : Nat → Frac) (p : Nat) (out : StepOut) (p₁ : Nat)
    (h : stepE cfg st aqa aex ρ p = (Except.ok out, p₁)) :
    (out.done = true ↔ st.current_time = cfg.terminates_at) ∧
    out.truncated = false := by
  obtain ⟨a, -, -, hd, ht⟩ := stepE_ok_inv cfg st aqa aex ρ p out p₁ h
  refine ⟨?_, ht⟩
  rw [hd]
  exact beq_iff_eq

/-- Claim C10: when the most recent observation's question was suppressed
(the stored answer is `none`), `step` fails during answer scoring instead of
returning a reward; hence `step` completes normally only when a question was
actually posed. -/
theorem step_errors_without_answer (cfg : EnvConfig) (st : EnvState)
    (aqa aex : String) (ρ : Nat → Frac) (p : Nat) (h : st.answer = none) :
    stepE cfg st aqa aex ρ p = (Except.error EnvError.noAnswer, p) := by
  rw [stepE, h]
  rfl

/- ### Concrete runs used by the witnesses -/

/-- The all-zeros draw stream. -/
def rho0 : Nat → Frac := fun _ => ⟨0, 1⟩

def objAgentW : Obj :=
  { name := "agent", type := "agent", init_probs := [("a", ⟨1, 1⟩)],
    transition_probs := TransCfg.null, question_prob := ⟨0, 1⟩,
    location := "a", history := ["a"], attached := [], attachedTo := none }

def cfgW : EnvConfig :=
  { room_config := [⟨"a", "b", "wall", "wall", "wall"⟩,
                    ⟨"b", "wall", "wall", "a", "wall"⟩],
    static_config := [], independent_config := [], dependent_config := [],
    agent_config := [⟨"agent", [("a", ⟨1, 1⟩)], TransCfg.null, ⟨0, 1⟩⟩],
    question_prob := ⟨1, 1⟩, terminates_at := 0, randomize_observations := false,
    reward_correct := 1, reward_wrong := -1, reward_part := 0,
    make_everything_static := true }

def stW : EnvState :=
  { rooms := roomsW, statics := [], indeps := [], deps := [], agents := [objAgentW],
    current_time := 0, question := none, answer := some ⟨"a", none⟩ }

def outW : StepOut :=
  { obs := { room := [⟨"agent", "atlocation", "a", 1⟩, ⟨"a", "north", "b", 1⟩,
                      ⟨"a", "east", "wall", 1⟩, ⟨"a", "south", "wall", 1⟩,
                      ⟨"a", "west", "wall", 1⟩],
             question := some ⟨"agent", "atlocation", "?", 1⟩ },
    reward := 1, done := true, truncated := false,
    info := { answers := some ⟨"a", none⟩, timestamp := 0 },
    state := { rooms := roomsW, statics := [], indeps := [], deps := [],
               agents := [{ objAgentW with history := ["a", "a"] }],
               current_time := 1,
               question := some ⟨"agent", "atlocation", "?", 1⟩,
               answer := some ⟨"a", none⟩ } }

/-- Witness for claim C1: a concrete completed step whose answer matches
`current` is rewarded with the CORRECT reward. -/
theorem step_reward_cases_witness :
    (stepE cfgW stW "a" "stay" rho0 0 = (Except.ok outW, 2)) ∧
    (∃ a, stW.answer = some a ∧
      ("a" = a.current → outW.reward = cfgW.reward_correct) ∧
      ("a" ≠ a.current → a.previous = some "a" → outW.reward = cfgW.reward_part) ∧
      ("a" ≠ a.current → a.previous ≠ some "a" → outW.reward = cfgW.reward_wrong)) :=
  ⟨by rfl, step_reward_cases cfgW stW "a" "stay" rho0 0 outW 2 (by rfl)⟩

/-- Witness for claim C2: a concrete step at the terminal timestep returns
`done = true` and `truncated = false`. -/
theorem step_done_truncated_witness :
    (stepE cfgW stW "a" "stay" rho0 0 = (Except.ok outW, 2)) ∧
    ((outW.done = true ↔ stW.current_time = cfgW.terminates_at) ∧
      outW.truncated = false) :=
  ⟨by rfl, step_done_truncated cfgW stW "a" "stay" rho0 0 outW 2 (by rfl)⟩

def stN : EnvState := { stW with answer := none }

/-- Witness for claim C10: with a suppressed question (no stored answer) the
very same step call fails during scoring. -/
theorem step_errors_without_answer_witness :
    (stN.answer = none) ∧
    stepE cfgW stN "a" "stay" rho0 0 = (Except.error EnvError.noAnswer, 0) :=
  ⟨rfl, step_errors_without_answer cfgW stN "a" "stay" rho0 0 rfl⟩

/- ### Independent movement effects (claim C4) -/

/-- Claim C4: after one `move()` of an independent object, every dependent
that was attached to it before the move has its location set to the
independent object's new location, the independent object's attached set is
empty, and each of those dependents is attached to nothing. -/
theorem indep_move_propagates_and_detaches (io : Obj) (rooms : List Room)
    (deps : List Obj) (ρ : Nat → Frac) (p : Nat) (io₁ : Obj) (deps₁ : List Obj)
    (p₁ : Nat) (h : ioMove io rooms deps ρ p = (Except.ok (io₁, deps₁), p₁)) :
    io₁.attached = [] ∧ deps₁.length = deps.length ∧
    ∀ i, i < deps.length → (deps.getD i default).name ∈ io.attached →
      (deps₁.getD i default).location = io₁.location ∧
      (deps₁.getD i default).attachedTo = none := by
  rw [ioMove] at h
  split at h
  · simp at h
  · split at h
    split at h
    · simp at h
    · rw [Prod.mk.injEq] at h
      obtain ⟨h1, -⟩ := h
      injection h1 with h1
      rw [Prod.mk.injEq] at h1
      obtain ⟨hio, hdeps⟩ := h1
      subst hio hdeps
      refine ⟨rfl, by simp, ?_⟩
      intro i hi hmem
      have h2 : ∀ (f : Obj → Obj), (List.map f deps).getD i default =
          f (deps.getD i default) := by
        intro f
        rw [List.getD_eq_getElem?_getD, List.getD_eq_getElem?_getD,
          List.getElem?_map, List.getElem?_eq_getElem hi]
        rfl
      rw [h2]
      simp only [List.getD_eq_getElem?_getD] at hmem ⊢
      simp [hmem]

def ioW : Obj :=
  { name := "io1", type := "independent", init_probs := [("a", ⟨1, 1⟩)],
    transition_probs := TransCfg.indep [("a", [("stay", ⟨1, 1⟩)])],
    question_prob := ⟨0, 1⟩, location := "a", history := ["a"],
    attached := ["d1"], attachedTo := none }

def depW1 : Obj :=
  { name := "d1", type := "dependent", init_probs := [("a", ⟨1, 1⟩)],
    transition_probs := TransCfg.dep [("io1", ⟨1, 1⟩)], question_prob := ⟨1, 1⟩,
    location := "a", history := ["a"], attached := [], attachedTo := some "io1" }

def depW2 : Obj :=
  { name := "d2", type := "dependent", init_probs := [("b", ⟨1, 1⟩)],
    transition_probs := TransCfg.dep [("io1", ⟨1, 2⟩)], question_prob := ⟨0, 1⟩,
    location := "b", history := ["b"], attached := [], attachedTo := none }

/-- Witness for claim C4: a concrete independent move that drags `d1` along
and then detaches it, leaving `d2` untouched. -/
theorem indep_move_witness :
    (ioMove ioW roomsW [depW1, depW2] rho0 0 =
      (Except.ok ({ ioW with attached := [] },
                  [{ depW1 with attachedTo := none }, depW2]), 1)) ∧
    (({ ioW with attached := ([] : List String) } : Obj).attached = [] ∧
      ([{ depW1 with attachedTo := none }, depW2] : List Obj).length =
        ([depW1, depW2] : List Obj).length ∧
      ∀ i, i < ([depW1, depW2] : List Obj).length →
        (([depW1, depW2] : List Obj).getD i default).name ∈ ioW.attached →
        (([{ depW1 with attachedTo := none }, depW2] : List Obj).getD i
            default).location = ({ ioW with attached := ([] : List String) } : Obj).location ∧
        (([{ depW1 with attachedTo := none }, depW2] : List Obj).getD i
            default).attachedTo = none) :=
  ⟨by rfl,
   indep_move_propagates_and_detaches ioW roomsW [depW1, depW2] rho0 0
     { ioW with attached := [] } [{ depW1 with attachedTo := none }, depW2] 1
     (by rfl)⟩

/- ### Attachment consistency (claim C5) -/

/-- Every dependent's pointer is honored: the independent it names is in the
population and lists the dependent among its riders. -/
def FwdConsistent (ios deps : List Obj) : Prop :=
  ∀ d ∈ deps, ∀ nm, d.attachedTo = some nm →
    ∃ io ∈ ios, io.name = nm ∧ d.name ∈ io.attached

/-- Every registered rider is a dependent in the population pointing back at
that independent. -/
def BwdConsistent (ios deps : List Obj) : Prop :=
  ∀ io ∈ ios, ∀ nm ∈ io.attached,
    ∃ d ∈ deps, d.name = nm ∧ d.attachedTo = some io.name

lemma getD_mem (l : List Obj) (j : Nat) (h : j < l.length) : l.getD j default ∈ l := by
  rw [List.getD_eq_getElem?_getD, List.getElem?_eq_getElem h]
  simp only [Option.getD_some]
  exact List.getElem_mem h

lemma mem_getD (l : List Obj) (x : Obj) (h : x ∈ l) :
    ∃ j, j < l.length ∧ l.getD j default = x := by
  obtain ⟨j, hj, hx⟩ := List.getElem_of_mem h
  refine ⟨j, hj, ?_⟩
  rw [List.getD_eq_getElem?_getD, List.getElem?_eq_getElem hj]
  simpa using hx

lemma attachOne_cases (d : Obj) (ios : List Obj) (ρ : Nat → Frac) (p : Nat)
    (d₁ : Obj) (ios₁ : List Obj) (p₁ : Nat)
    (h : attachOne d ios ρ p = (d₁, ios₁, p₁)) :
    d₁.name = d.name ∧
    ios₁.length = ios.length ∧
    (∀ j, j < ios.length →
      (ios₁.getD j default).name = (ios.getD j default).name ∧
      (∀ x ∈ (ios.getD j default).attached, x ∈ (ios₁.getD j default).attached) ∧
      (∀ x ∈ (ios₁.getD j default).attached,
        x ∈ (ios.getD j default).attached ∨
          (x = d₁.name ∧ d₁.attachedTo = some (ios₁.getD j default).name))) ∧
    (d₁.attachedTo = none ∨
      ∃ io ∈ ios₁, d₁.attachedTo = some io.name ∧ d₁.name ∈ io.attached) := by
  rw [attachOne] at h
  rcases hc : collectPossible { d with attachedTo := none } ios 0 ρ p with ⟨poss, pA⟩
  simp only [hc] at h
  by_cases hpos : poss = []
  · simp only [if_pos hpos, Prod.mk.injEq] at h
    obtain ⟨h1, h2, -⟩ := h
    subst h1 h2
    exact ⟨rfl, rfl, fun j hj => ⟨rfl, fun x hx => hx, fun x hx => Or.inl hx⟩,
      Or.inl rfl⟩
  · simp only [if_neg hpos] at h
    rcases hu : uniformPick poss ρ pA with ⟨idx, p₂⟩
    simp only [hu] at h
    cases hg : ios[idx]? with
    | none =>
      simp only [hg, Prod.mk.injEq] at h
      obtain ⟨h1, h2, -⟩ := h
      subst h1 h2
      exact ⟨rfl, rfl, fun j hj => ⟨rfl, fun x hx => hx, fun x hx => Or.inl hx⟩,
        Or.inl rfl⟩
    | some io =>
      simp only [hg, Prod.mk.injEq] at h
      obtain ⟨h1, h2, -⟩ := h
      obtain ⟨hlt, hio⟩ := List.getElem?_eq_some_iff.mp hg
      subst h1 h2
      constructor
      · rfl
      constructor
      · simp
      constructor
      · intro j hj
        have hj₁ : j < (ios.set idx (if d.name ∈ io.attached then io
            else { io with attached := io.attached ++ [d.name] })).length := by
          simpa using hj
        by_cases hji : j = idx
        · subst hji
          rw [List.getD_eq_getElem?_getD, List.getD_eq_getElem?_getD,
            List.getElem?_eq_getElem hj₁, List.getElem?_eq_getElem hj]
          simp only [Option.getD_some]
          rw [List.getElem_set_self hj₁, hio]
          by_cases hb : d.name ∈ io.attached
          · simp only [if_pos hb]
            exact ⟨by trivial, fun x hx => hx, fun x hx => Or.inl hx⟩
          · simp only [if_neg hb]
            refine ⟨by trivial, fun x hx => List.mem_append.mpr (Or.inl hx), ?_⟩
            intro x hx
            rcases List.mem_append.mp hx with hx | hx
            · exact Or.inl hx
            · simp only [List.mem_singleton] at hx
              exact Or.inr ⟨hx, by trivial⟩
        · rw [List.getD_eq_getElem?_getD, List.getD_eq_getElem?_getD,
            List.getElem?_eq_getElem hj₁, List.getElem?_eq_getElem hj]
          simp only [Option.getD_some]
          rw [List.getElem_set_ne (by omega)]
          exact ⟨rfl, fun x hx => hx, fun x hx => Or.inl hx⟩
      · refine Or.inr ⟨if d.name ∈ io.attached then io
          else { io with attached := io.attached ++ [d.name] }, ?_, ?_, ?_⟩
        · exact List.mem_set ios idx hlt _
        · by_cases hb : d.name ∈ io.attached
          · rw [if_pos hb]
          · rw [if_neg hb]
        · by_cases hb : d.name ∈ io.attached
          · rw [if_pos hb]; exact hb
          · rw [if_neg hb]
            exact List.mem_append.mpr (Or.inr (by simp))

lemma attachOne_preserves (d : Obj) (ios ds : List Obj) (ρ : Nat → Frac) (p : Nat)
    (d₁ : Obj) (ios₁ : List Obj) (p₁ : Nat)
    (hfwd : FwdConsistent ios ds) (hbwd : BwdConsistent ios ds)
    (h : attachOne d ios ρ p = (d₁, ios₁, p₁)) :
    FwdConsistent ios₁ (ds ++ [d₁]) ∧ BwdConsistent ios₁ (ds ++ [d₁]) := by
  obtain ⟨hname, hlen, hgrow, hptr⟩ := attachOne_cases d ios ρ p d₁ ios₁ p₁ h
  constructor
  · intro d' hd' nm hnm
    rcases List.mem_append.mp hd' with hds | hone
    · obtain ⟨io, hio, hionm, hmem⟩ := hfwd d' hds nm hnm
      obtain ⟨j, hj, hjio⟩ := mem_getD ios io hio
      obtain ⟨hn, hsub, -⟩ := hgrow j hj
      refine ⟨ios₁.getD j default, getD_mem ios₁ j (by omega), ?_, ?_⟩
      · rw [hn, hjio, hionm]
      · exact hsub d'.name (by rw [hjio]; exact hmem)
    · have hde : d' = d₁ := by simpa using hone
      subst hde
      rcases hptr with hnone | ⟨io, hio, hioeq, hmem⟩
      · rw [hnone] at hnm; cases hnm
      · rw [hioeq] at hnm
        injection hnm with hnm
        exact ⟨io, hio, hnm, hmem⟩
  · intro io' hio' nm hnm
    obtain ⟨j, hj₁, hjio⟩ := mem_getD ios₁ io' hio'
    have hj : j < ios.length := by omega
    obtain ⟨hn, hsub, hnew⟩ := hgrow j hj
    rcases hnew nm (by rw [hjio]; exact hnm) with hold | ⟨hx, hxa⟩
    · obtain ⟨d', hd', hdn, hda⟩ := hbwd (ios.getD j default) (getD_mem ios j hj) nm hold
      refine ⟨d', List.mem_append.mpr (Or.inl hd'), hdn, ?_⟩
      rw [hda, ← hn, hjio]
    · refine ⟨d₁, List.mem_append.mpr (Or.inr (by simp)), hx.symm, ?_⟩
      rw [hxa, hjio]

lemma attachPhase_inv (deps : List Obj) :
    ∀ ios ds ρ p ios₁ deps₁ p₁,
      FwdConsistent ios ds → BwdConsistent ios ds →
      attachPhase ios deps ρ p = (ios₁, deps₁, p₁) →
      FwdConsistent ios₁ (ds ++ deps₁) ∧ BwdConsistent ios₁ (ds ++ deps₁) := by
  induction deps with
  | nil =>
    intro ios ds ρ p ios₁ deps₁ p₁ hf hb h
    rw [attachPhase, Prod.mk.injEq, Prod.mk.injEq] at h
    obtain ⟨h1, h2, -⟩ := h
    subst h1 h2
    simpa using ⟨hf, hb⟩
  | cons d rest ih =>
    intro ios ds ρ p ios₁ deps₁ p₁ hf hb h
    rw [attachPhase] at h
    rcases h1 : attachOne d ios ρ p with ⟨d₁, iosA, pA⟩
    simp only [h1] at h
    rcases h2 : attachPhase iosA rest ρ pA with ⟨iosB, restB, pB⟩
    simp only [h2, Prod.mk.injEq] at h
    obtain ⟨ha, hbb, -⟩ := h
    subst ha hbb
    obtain ⟨hf1, hb1⟩ := attachOne_preserves d ios ds ρ p d₁ iosA pA hf hb h1
    have hih := ih iosA (ds ++ [d₁]) ρ pA iosB restB pB hf1 hb1 h2
    simpa [List.append_assoc] using hih

lemma mkDep_ok_attachOne (c : ObjCfg) (ios : List Obj) (ρ : Nat → Frac) (p : Nat)
    (o₁ : Obj) (ios₁ : List Obj) (p₁ : Nat)
    (h : mkDep c ios ρ p = (Except.ok (o₁, ios₁), p₁)) :
    ∃ o pm, attachOne o ios ρ pm = (o₁, ios₁, p₁) := by
  rw [mkDep] at h
  rcases hmk : mkObject c.name "dependent" c.init_probs c.transition_probs
      c.question_prob ρ p with ⟨r, pA⟩
  rw [hmk] at h
  cases r with
  | error e => simp at h
  | ok o =>
    cases htr : c.transition_probs with
    | null => rw [htr] at h; simp at h
    | indep t => rw [htr] at h; simp at h
    | dep t =>
      rw [htr] at h
      by_cases hall : t.all (fun kv => Frac.ltB kv.2 (Frac.add ⟨1, 1⟩ EPSILON)) = true
      · rcases ha : attachOne o ios ρ pA with ⟨x, y, z⟩
        simp only [hall, if_true, ha, Prod.mk.injEq] at h
        obtain ⟨hxy, hz⟩ := h
        injection hxy with hxy
        rw [Prod.mk.injEq] at hxy
        obtain ⟨hx, hy⟩ := hxy
        subst hx hy hz
        exact ⟨o, pA, ha⟩
      · rw [Bool.not_eq_true] at hall
        simp [hall] at h

lemma createDeps_inv (cfgs : List ObjCfg) :
    ∀ ios ds ρ p os ios₂ p₂,
      FwdConsistent ios ds → BwdConsistent ios ds →
      createDeps cfgs ios ρ p = (Except.ok (os, ios₂), p₂) →
      FwdConsistent ios₂ (ds ++ os) ∧ BwdConsistent ios₂ (ds ++ os) := by
  induction cfgs with
  | nil =>
    intro ios ds ρ p os ios₂ p₂ hf hb h
    rw [createDeps] at h
    simp only [Prod.mk.injEq] at h
    obtain ⟨h1, -⟩ := h
    injection h1 with h1
    rw [Prod.mk.injEq] at h1
    obtain ⟨h1, h2⟩ := h1
    subst h1 h2
    simpa using ⟨hf, hb⟩
  | cons c rest ih =>
    intro ios ds ρ p os ios₂ p₂ hf hb h
    rw [createDeps] at h
    split at h
    · simp at h
    · rename_i pr o iosA pA hmk
      split at h
      · simp at h
      · rename_i pr₂ os₁ iosB pB hrec
        simp only [Prod.mk.injEq] at h
        obtain ⟨h1, hp⟩ := h
        injection h1 with h1
        rw [Prod.mk.injEq] at h1
        obtain ⟨h1, h2⟩ := h1
        subst h1 h2 hp
        obtain ⟨o₀, pm, ha⟩ := mkDep_ok_attachOne c ios ρ p o iosA pA hmk
        obtain ⟨hf1, hb1⟩ := attachOne_preserves o₀ ios ds ρ pm o iosA pA hf hb ha
        have hih := ih iosA (ds ++ [o]) ρ pA os₁ iosB pB hf1 hb1 hrec
        simpa [List.append_assoc] using hih

/-- Claim C5: after the attach phase of any step, and likewise after the
dependents are created at reset, the dependent-to-independent attachment
relation is mutually consistent: every dependent is attached to at most one
independent (its pointer is a single optional name), and whenever it is
attached, that independent's attached set contains the dependent, while every
entry of an attached set points back at that independent.  The attach phase
is entered with all attached sets empty (independent moves detach
everything, and creation starts empty). -/
theorem attach_phase_mutual_consistency :
    (∀ ios deps ρ p ios₁ deps₁ p₁, (∀ io ∈ ios, io.attached = []) →
      attachPhase ios deps ρ p = (ios₁, deps₁, p₁) →
      FwdConsistent ios₁ deps₁ ∧ BwdConsistent ios₁ deps₁) ∧
    (∀ cfgs ios ρ p os ios₂ p₂, (∀ io ∈ ios, io.attached = []) →
      createDeps cfgs ios ρ p = (Except.ok (os, ios₂), p₂) →
      FwdConsistent ios₂ os ∧ BwdConsistent ios₂ os) := by
  constructor
  · intro ios deps ρ p ios₁ deps₁ p₁ hempty h
    have hf : FwdConsistent ios [] := by intro d hd; cases hd
    have hb : BwdConsistent ios [] := by
      intro io hio nm hnm
      rw [hempty io hio] at hnm
      cases hnm
    simpa using attachPhase_inv deps ios [] ρ p ios₁ deps₁ p₁ hf hb h
  · intro cfgs ios ρ p os ios₂ p₂ hempty h
    have hf : FwdConsistent ios [] := by intro d hd; cases hd
    have hb : BwdConsistent ios [] := by
      intro io hio nm hnm
      rw [hempty io hio] at hnm
      cases hnm
    simpa using createDeps_inv cfgs ios [] ρ p os ios₂ p₂ hf hb h

/-- Witness for claim C5: a concrete attach phase in which `d1` attaches to
`io1`, yielding a mutually consistent relation. -/
theorem attach_phase_witness :
    ((∀ io ∈ [{ ioW with attached := ([] : List String) }], io.attached = []) ∧
      attachPhase [{ ioW with attached := [] }] [depW1] rho0 0 =
        ([ioW], [depW1], 2)) ∧
    (FwdConsistent [ioW] [depW1] ∧ BwdConsistent [ioW] [depW1]) :=
  ⟨⟨by decide, by rfl⟩,
   attach_phase_mutual_consistency.1 [{ ioW with attached := [] }] [depW1] rho0 0
     [ioW] [depW1] 2 (by decide) (by rfl)⟩

/- ### Determinism of `reset` in the consumed draws (claim C8) -/

/-- Two draw streams agree on the half-open position window `[a, b)`. -/
def AgreesOn (ρ ρ' : Nat → Frac) (a b : Nat) : Prop :=
  ∀ i, a ≤ i → i < b → ρ i = ρ' i

lemma agreesOn_mono (ρ ρ' : Nat → Frac) (a b a' b' : Nat) (h : AgreesOn ρ ρ' a b)
    (ha : a ≤ a') (hb : b' ≤ b) : AgreesOn ρ ρ' a' b' :=
  fun i h1 h2 => h i (Nat.le_trans ha h1) (Nat.lt_of_lt_of_le h2 hb)

lemma sampleWeighted_mono {α : Type} [Inhabited α] (items : List (α × Frac))
    (ρ : Nat → Frac) (p : Nat) (r : α) (q : Nat)
    (h : sampleWeighted items ρ p = (r, q)) : p ≤ q := by
  have : q = p + 1 := (congrArg Prod.snd h).symm
  omega

lemma sampleWeighted_ext {α : Type} [Inhabited α] (items : List (α × Frac))
    (ρ ρ' : Nat → Frac) (p : Nat) (r : α) (q : Nat)
    (h : sampleWeighted items ρ p = (r, q)) (hAg : AgreesOn ρ ρ' p q) :
    sampleWeighted items ρ' p = (r, q) := by
  have hq : q = p + 1 := (congrArg Prod.snd h).symm
  have hv : ρ p = ρ' p := hAg p (Nat.le_refl p) (by omega)
  rw [← h]
  simp [sampleWeighted, draw, hv]

lemma bernoulliDraw_mono (prob : Frac) (ρ : Nat → Frac) (p : Nat) (r : Bool) (q : Nat)
    (h : bernoulliDraw prob ρ p = (r, q)) : p ≤ q := by
  have : q = p + 1 := (congrArg Prod.snd h).symm
  omega

lemma bernoulliDraw_ext (prob : Frac) (ρ ρ' : Nat → Frac) (p : Nat) (r : Bool) (q : Nat)
    (h : bernoulliDraw prob ρ p = (r, q)) (hAg : AgreesOn ρ ρ' p q) :
    bernoulliDraw prob ρ' p = (r, q) := by
  have hq : q = p + 1 := (congrArg Prod.snd h).symm
  have hv : ρ p = ρ' p := hAg p (Nat.le_refl p) (by omega)
  rw [← h]
  simp [bernoulliDraw, draw, hv]

lemma uniformPick_mono {α : Type} [Inhabited α] (l : List α) (ρ : Nat → Frac)
    (p : Nat) (r : α) (q : Nat) (h : uniformPick l ρ p = (r, q)) : p ≤ q := by
  have : q = p + 1 := (congrArg Prod.snd h).symm
  omega

lemma uniformPick_ext {α : Type} [Inhabited α] (l : List α) (ρ ρ' : Nat → Frac)
    (p : Nat) (r : α) (q : Nat) (h : uniformPick l ρ p = (r, q))
    (hAg : AgreesOn ρ ρ' p q) : uniformPick l ρ' p = (r, q) := by
  have hq : q = p + 1 := (congrArg Prod.snd h).symm
  have hv : ρ p = ρ' p := hAg p (Nat.le_refl p) (by omega)
  rw [← h]
  simp [uniformPick, draw, hv]

lemma mkObject_mono (name ty : String) (ip : PDist) (tr : TransCfg) (qp : Frac)
    (ρ : Nat → Frac) (p : Nat) (r : Except EnvError Obj) (q : Nat)
    (h : mkObject name ty ip tr qp ρ p = (r, q)) : p ≤ q := by
  rw [mkObject] at h
  split at h
  · have : q = p := (congrArg Prod.snd h).symm
    omega
  · split at h
    · have : q = p := (congrArg Prod.snd h).symm
      omega
    · have : q = p + 1 := (congrArg Prod.snd h).symm
      omega

lemma mkObject_ext (name ty : String) (ip : PDist) (tr : TransCfg) (qp : Frac)
    (ρ ρ' : Nat → Frac) (p : Nat) (r : Except EnvError Obj) (q : Nat)
    (h : mkObject name ty ip tr qp ρ p = (r, q)) (hAg : AgreesOn ρ ρ' p q) :
    mkObject name ty ip tr qp ρ' p = (r, q) := by
  rw [mkObject] at h ⊢
  split at h
  · rename_i hc
    rw [if_pos hc]
    exact h
  · rename_i hc
    rw [if_neg hc]
    split at h
    · rename_i hc₂
      rw [if_pos hc₂]
      exact h
    · rename_i hc₂
      rw [if_neg hc₂]
      rcases hs : sampleWeighted ip ρ p with ⟨loc, pA⟩
      rw [hs] at h
      have hq : q = pA := (congrArg Prod.snd h).symm
      subst hq
      rw [sampleWeighted_ext ip ρ ρ' p loc q hs hAg]
      exact h

lemma mkStatic_mono (c : ObjCfg) (ρ : Nat → Frac) (p : Nat) (r : Except EnvError Obj)
    (q : Nat) (h : mkStatic c ρ p = (r, q)) : p ≤ q := by
  rw [mkStatic] at h
  rcases hm : mkObject c.name "static" c.init_probs c.transition_probs
      c.question_prob ρ p with ⟨r0, p0⟩
  rw [hm] at h
  have hp0 := mkObject_mono _ _ _ _ _ _ _ _ _ hm
  cases r0 with
  | error e =>
    dsimp only at h
    have : q = p0 := (congrArg Prod.snd h).symm
    omega
  | ok o =>
    dsimp only at h
    split at h <;>
      (have : q = p0 := (congrArg Prod.snd h).symm; omega)

lemma mkStatic_ext (c : ObjCfg) (ρ ρ' : Nat → Frac) (p : Nat) (r : Except EnvError Obj)
    (q : Nat) (h : mkStatic c ρ p = (r, q)) (hAg : AgreesOn ρ ρ' p q) :
    mkStatic c ρ' p = (r, q) := by
  rw [mkStatic] at h ⊢
  rcases hm : mkObject c.name "static" c.init_probs c.transition_probs
      c.question_prob ρ p with ⟨r0, p0⟩
  rw [hm] at h
  have hq : q = p0 := by
    cases r0 with
    | error e => exact (congrArg Prod.snd h).symm
    | ok o =>
      dsimp only at h
      split at h <;> exact (congrArg Prod.snd h).symm
  subst hq
  rw [mkObject_ext _ _ _ _ _ ρ ρ' p r0 q hm hAg]
  exact h

lemma mkIndep_mono (c : ObjCfg) (ρ : Nat → Frac) (p : Nat) (r : Except EnvError Obj)
    (q : Nat) (h : mkIndep c ρ p = (r, q)) : p ≤ q := by
  rw [mkIndep] at h
  rcases hm : mkObject c.name "independent" c.init_probs c.transition_probs
      c.question_prob ρ p with ⟨r0, p0⟩
  rw [hm] at h
  have hp0 := mkObject_mono _ _ _ _ _ _ _ _ _ hm
  cases r0 with
  | error e =>
    dsimp only at h
    have : q = p0 := (congrArg Prod.snd h).symm
    omega
  | ok o =>
    dsimp only at h
    split at h <;>
      first
        | (split at h <;> (have : q = p0 := (congrArg Prod.snd h).symm; omega))
        | (have : q = p0 := (congrArg Prod.snd h).symm; omega)

lemma mkIndep_ext (c : ObjCfg) (ρ ρ' : Nat → Frac) (p : Nat) (r : Except EnvError Obj)
    (q : Nat) (h : mkIndep c ρ p = (r, q)) (hAg : AgreesOn ρ ρ' p q) :
    mkIndep c ρ' p = (r, q) := by
  rw [mkIndep] at h ⊢
  rcases hm : mkObject c.name "independent" c.init_probs c.transition_probs
      c.question_prob ρ p with ⟨r0, p0⟩
  rw [hm] at h
  have hq : q = p0 := by
    cases r0 with
    | error e => exact (congrArg Prod.snd h).symm
    | ok o =>
      dsimp only at h
      split at h <;>
        first
          | (split at h <;> exact (congrArg Prod.snd h).symm)
          | exact (congrArg Prod.snd h).symm
  subst hq
  rw [mkObject_ext _ _ _ _ _ ρ ρ' p r0 q hm hAg]
  exact h

lemma mkAgent_mono (c : ObjCfg) (ρ : Nat → Frac) (p : Nat) (r : Except EnvError Obj)
    (q : Nat) (h : mkAgent c ρ p = (r, q)) : p ≤ q := by
  rw [mkAgent] at h
  split at h
  · have : q = p := (congrArg Prod.snd h).symm
    omega
  · rcases hm : mkObject c.name "agent" c.init_probs c.transition_probs
        c.question_prob ρ p with ⟨r0, p0⟩
    rw [hm] at h
    have hp0 := mkObject_mono _ _ _ _ _ _ _ _ _ hm
    cases r0 with
    | error e =>
      dsimp only at h
      have : q = p0 := (congrArg Prod.snd h).symm
      omega
    | ok o =>
      dsimp only at h
      split at h <;>
        (have : q = p0 := (congrArg Prod.snd h).symm; omega)

lemma mkAgent_ext (c : ObjCfg) (ρ ρ' : Nat → Frac) (p : Nat) (r : Except EnvError Obj)
    (q : Nat) (h : mkAgent c ρ p = (r, q)) (hAg : AgreesOn ρ ρ' p q) :
    mkAgent c ρ' p = (r, q) := by
  rw [mkAgent] at h ⊢
  split at h
  · rename_i hc
    rw [if_pos hc]
    exact h
  · rename_i hc
    rw [if_neg hc]
    rcases hm : mkObject c.name "agent" c.init_probs c.transition_probs
        c.question_prob ρ p with ⟨r0, p0⟩
    rw [hm] at h
    have hq : q = p0 := by
      cases r0 with
      | error e => exact (congrArg Prod.snd h).symm
      | ok o =>
        dsimp only at h
        split at h <;> exact (congrArg Prod.snd h).symm
    subst hq
    rw [mkObject_ext _ _ _ _ _ ρ ρ' p r0 q hm hAg]
    exact h

lemma depTrials_mono (nm : String) (idx : Nat) (t : PDist) :
    ∀ ρ p r q, depTrials nm idx t ρ p = (r, q) → p ≤ q := by
  induction t with
  | nil =>
    intro ρ p r q h
    rw [depTrials] at h
    have : q = p := (congrArg Prod.snd h).symm
    omega
  | cons kv rest ih =>
    intro ρ p r q h
    obtain ⟨key, prob⟩ := kv
    rw [depTrials] at h
    split at h
    · rcases hb : bernoulliDraw prob ρ p with ⟨b, p₁⟩
      rw [hb] at h
      dsimp only at h
      rcases hd : depTrials nm idx rest ρ p₁ with ⟨l, p₂⟩
      rw [hd] at h
      have h1 := bernoulliDraw_mono _ _ _ _ _ hb
      have h2 := ih ρ p₁ l p₂ hd
      dsimp only at h
      have : q = p₂ := (congrArg Prod.snd h).symm
      omega
    · exact ih ρ p r q h

lemma depTrials_ext (nm : String) (idx : Nat) (t : PDist) :
    ∀ ρ ρ' p r q, depTrials nm idx t ρ p = (r, q) → AgreesOn ρ ρ' p q →
      depTrials nm idx t ρ' p = (r, q) := by
  induction t with
  | nil =>
    intro ρ ρ' p r q h hAg
    rw [depTrials] at h ⊢
    exact h
  | cons kv rest ih =>
    intro ρ ρ' p r q h hAg
    obtain ⟨key, prob⟩ := kv
    rw [depTrials] at h ⊢
    split at h
    · rename_i hc
      rw [if_pos hc]
      rcases hb : bernoulliDraw prob ρ p with ⟨b, p₁⟩
      rw [hb] at h
      dsimp only at h
      rcases hd : depTrials nm idx rest ρ p₁ with ⟨l, p₂⟩
      rw [hd] at h
      dsimp only at h
      have hq : q = p₂ := (congrArg Prod.snd h).symm
      subst hq
      have hm1 := bernoulliDraw_mono _ _ _ _ _ hb
      have hm2 := depTrials_mono nm idx rest ρ p₁ l q hd
      rw [bernoulliDraw_ext prob ρ ρ' p b p₁ hb
        (agreesOn_mono _ _ _ _ _ _ hAg (Nat.le_refl p) hm2)]
      dsimp only
      rw [ih ρ ρ' p₁ l q hd (agreesOn_mono _ _ _ _ _ _ hAg hm1 (Nat.le_refl q))]
      exact h
    · rename_i hc
      rw [if_neg hc]
      exact ih ρ ρ' p r q h hAg

lemma collectPossible_mono (dep : Obj) (ios : List Obj) :
    ∀ idx ρ p r q, collectPossible dep ios idx ρ p = (r, q) → p ≤ q := by
  induction ios with
  | nil =>
    intro idx ρ p r q h
    rw [collectPossible] at h
    have : q = p := (congrArg Prod.snd h).symm
    omega
  | cons io rest ih =>
    intro idx ρ p r q h
    rw [collectPossible] at h
    split at h
    · rcases h1 : depTrials io.name idx (depTransList dep) ρ p with ⟨l₁, p₁⟩
      rw [h1] at h
      dsimp only at h
      rcases h2 : collectPossible dep rest (idx + 1) ρ p₁ with ⟨l₂, p₂⟩
      rw [h2] at h
      dsimp only at h
      have hm1 := depTrials_mono _ _ _ _ _ _ _ h1
      have hm2 := ih (idx + 1) ρ p₁ l₂ p₂ h2
      have : q = p₂ := (congrArg Prod.snd h).symm
      omega
    · exact ih (idx + 1) ρ p r q h

lemma collectPossible_ext (dep : Obj) (ios : List Obj) :
    ∀ idx ρ ρ' p r q, collectPossible dep ios idx ρ p = (r, q) →
      AgreesOn ρ ρ' p q → collectPossible dep ios idx ρ' p = (r, q) := by
  induction ios with
  | nil =>
    intro idx ρ ρ' p r q h hAg
    rw [collectPossible] at h ⊢
    exact h
  | cons io rest ih =>
    intro idx ρ ρ' p r q h hAg
    rw [collectPossible] at h ⊢
    split at h
    · rename_i hc
      rw [if_pos hc]
      rcases h1 : depTrials io.name idx (depTransList dep) ρ p with ⟨l₁, p₁⟩
      rw [h1] at h
      dsimp only at h
      rcases h2 : collectPossible dep rest (idx + 1) ρ p₁ with ⟨l₂, p₂⟩
      rw [h2] at h
      dsimp only at h
      have hq : q = p₂ := (congrArg Prod.snd h).symm
      subst hq
      have hm1 := depTrials_mono _ _ _ _ _ _ _ h1
      have hm2 := collectPossible_mono dep rest (idx + 1) ρ p₁ l₂ q h2
      rw [depTrials_ext io.name idx (depTransList dep) ρ ρ' p l₁ p₁ h1
        (agreesOn_mono _ _ _ _ _ _ hAg (Nat.le_refl p) hm2)]
      dsimp only
      rw [ih (idx + 1) ρ ρ' p₁ l₂ q h2
        (agreesOn_mono _ _ _ _ _ _ hAg hm1 (Nat.le_refl q))]
      exact h
    · rename_i hc
      rw [if_neg hc]
      exact ih (idx + 1) ρ ρ' p r q h hAg

lemma attachOne_mono (d : Obj) (ios : List Obj) (ρ : Nat → Frac) (p : Nat)
    (d₁ : Obj) (ios₁ : List Obj) (q : Nat)
    (h : attachOne d ios ρ p = (d₁, ios₁, q)) : p ≤ q := by
  rw [attachOne] at h
  rcases hc : collectPossible { d with attachedTo := none } ios 0 ρ p with ⟨poss, pA⟩
  simp only [hc] at h
  have hm1 := collectPossible_mono _ _ _ _ _ _ _ hc
  by_cases hpos : poss = []
  · simp only [if_pos hpos] at h
    have : q = pA := (congrArg (fun x => x.2.2) h).symm
    omega
  · simp only [if_neg hpos] at h
    rcases hu : uniformPick poss ρ pA with ⟨idx, pB⟩
    simp only [hu] at h
    have hm2 := uniformPick_mono _ _ _ _ _ hu
    cases hg : ios[idx]? with
    | none =>
      simp only [hg] at h
      have : q = pB := (congrArg (fun x => x.2.2) h).symm
      omega
    | some io =>
      simp only [hg] at h
      have : q = pB := (congrArg (fun x => x.2.2) h).symm
      omega

lemma attachOne_ext (d : Obj) (ios : List Obj) (ρ ρ' : Nat → Frac) (p : Nat)
    (d₁ : Obj) (ios₁ : List Obj) (q : Nat)
    (h : attachOne d ios ρ p = (d₁, ios₁, q)) (hAg : AgreesOn ρ ρ' p q) :
    attachOne d ios ρ' p = (d₁, ios₁, q) := by
  rw [attachOne] at h ⊢
  rcases hc : collectPossible { d with attachedTo := none } ios 0 ρ p with ⟨poss, pA⟩
  simp only [hc] at h
  have hm1 := collectPossible_mono _ _ _ _ _ _ _ hc
  by_cases hpos : poss = []
  · simp only [if_pos hpos] at h
    have hq : q = pA := (congrArg (fun x => x.2.2) h).symm
    subst hq
    rw [collectPossible_ext _ _ _ ρ ρ' p poss q hc
      (agreesOn_mono _ _ _ _ _ _ hAg (Nat.le_refl p) (Nat.le_refl q))]
    simp only [if_pos hpos]
    exact h
  · simp only [if_neg hpos] at h
    rcases hu : uniformPick poss ρ pA with ⟨idx, pB⟩
    simp only [hu] at h
    have hm2 := uniformPick_mono _ _ _ _ _ hu
    have hq : q = pB := by
      cases hg : ios[idx]? with
      | none =>
        simp only [hg] at h
        exact (congrArg (fun x => x.2.2) h).symm
      | some io =>
        simp only [hg] at h
        exact (congrArg (fun x => x.2.2) h).symm
    subst hq
    rw [collectPossible_ext _ _ _ ρ ρ' p poss pA hc
      (agreesOn_mono _ _ _ _ _ _ hAg (Nat.le_refl p) hm2)]
    simp only [if_neg hpos]
    rw [uniformPick_ext poss ρ ρ' pA idx q hu
      (agreesOn_mono _ _ _ _ _ _ hAg hm1 (Nat.le_refl q))]
    exact h

lemma mkDep_mono (c : ObjCfg) (ios : List Obj) (ρ : Nat → Frac) (p : Nat)
    (r : Except EnvError (Obj × List Obj)) (q : Nat)
    (h : mkDep c ios ρ p = (r, q)) : p ≤ q := by
  rw [mkDep] at h
  rcases hm : mkObject c.name "dependent" c.init_probs c.transition_probs
      c.question_prob ρ p with ⟨r0, p0⟩
  rw [hm] at h
  have hp0 := mkObject_mono _ _ _ _ _ _ _ _ _ hm
  cases r0 with
  | error e =>
    dsimp only at h
    have : q = p0 := (congrArg Prod.snd h).symm
    omega
  | ok o =>
    dsimp only at h
    cases htr : c.transition_probs with
    | null =>
      rw [htr] at h
      dsimp only at h
      have : q = p0 := (congrArg Prod.snd h).symm
      omega
    | indep t =>
      rw [htr] at h
      dsimp only at h
      have : q = p0 := (congrArg Prod.snd h).symm
      omega
    | dep t =>
      rw [htr] at h
      dsimp only at h
      split at h
      · rcases ha : attachOne o ios ρ p0 with ⟨o₁, iosA, pB⟩
        rw [ha] at h
        dsimp only at h
        have hm2 := attachOne_mono _ _ _ _ _ _ _ ha
        have : q = pB := (congrArg Prod.snd h).symm
        omega
      · have : q = p0 := (congrArg Prod.snd h).symm
        omega

lemma mkDep_ext (c : ObjCfg) (ios : List Obj) (ρ ρ' : Nat → Frac) (p : Nat)
    (r : Except EnvError (Obj × List Obj)) (q : Nat)
    (h : mkDep c ios ρ p = (r, q)) (hAg : AgreesOn ρ ρ' p q) :
    mkDep c ios ρ' p = (r, q) := by
  rw [mkDep] at h ⊢
  rcases hm : mkObject c.name "dependent" c.init_probs c.transition_probs
      c.question_prob ρ p with ⟨r0, p0⟩
  rw [hm] at h
  have hp0 := mkObject_mono _ _ _ _ _ _ _ _ _ hm
  have hp0q : p0 ≤ q := by
    cases r0 with
    | error e =>
      dsimp only at h
      have : q = p0 := (congrArg Prod.snd h).symm
      omega
    | ok o =>
      dsimp only at h
      cases htr : c.transition_probs with
      | null =>
        rw [htr] at h
        dsimp only at h
        have : q = p0 := (congrArg Prod.snd h).symm
        omega
      | indep t =>
        rw [htr] at h
        dsimp only at h
        have : q = p0 := (congrArg Prod.snd h).symm
        omega
      | dep t =>
        rw [htr] at h
        dsimp only at h
        split at h
        · rcases ha : attachOne o ios ρ p0 with ⟨o₁, iosA, pB⟩
          rw [ha] at h
          dsimp only at h
          have hm2 := attachOne_mono _ _ _ _ _ _ _ ha
          have : q = pB := (congrArg Prod.snd h).symm
          omega
        · have : q = p0 := (congrArg Prod.snd h).symm
          omega
  rw [mkObject_ext _ _ _ _ _ ρ ρ' p r0 p0 hm
    (agreesOn_mono _ _ _ _ _ _ hAg (Nat.le_refl p) hp0q)]
  cases r0 with
  | error e =>
    dsimp only at h ⊢
    exact h
  | ok o =>
    dsimp only at h ⊢
    cases htr : c.transition_probs with
    | null =>
      rw [htr] at h
      dsimp only at h ⊢
      exact h
    | indep t =>
      rw [htr] at h
      dsimp only at h ⊢
      exact h
    | dep t =>
      rw [htr] at h
      dsimp only at h ⊢
      split at h
      · rename_i hall
        rw [if_pos hall]
        rcases ha : attachOne o ios ρ p0 with ⟨o₁, iosA, pB⟩
        rw [ha] at h
        dsimp only at h
        have hq : q = pB := (congrArg Prod.snd h).symm
        subst hq
        rw [attachOne_ext o ios ρ ρ' p0 o₁ iosA q ha
          (agreesOn_mono _ _ _ _ _ _ hAg hp0 (Nat.le_refl q))]
        exact h
      · rename_i hall
        rw [if_neg hall]
        exact h

lemma createStatics_mono (cfgs : List ObjCfg) :
    ∀ ρ p r q, createStatics cfgs ρ p = (r, q) → p ≤ q := by
  induction cfgs with
  | nil =>
    intro ρ p r q h
    rw [createStatics] at h
    have : q = p := (congrArg Prod.snd h).symm
    omega
  | cons c rest ih =>
    intro ρ p r q h
    rw [createStatics] at h
    rcases h1 : mkStatic c ρ p with ⟨r1, p1⟩
    rw [h1] at h
    have hm1 := mkStatic_mono c ρ p r1 p1 h1
    cases r1 with
    | error e =>
      dsimp only at h
      have : q = p1 := (congrArg Prod.snd h).symm
      omega
    | ok o =>
      dsimp only at h
      rcases h2 : createStatics rest ρ p1 with ⟨r2, p2⟩
      rw [h2] at h
      have hm2 := ih ρ p1 r2 p2 h2
      cases r2 <;>
        (dsimp only at h
         have : q = p2 := (congrArg Prod.snd h).symm
         omega)

lemma createStatics_ext (cfgs : List ObjCfg) :
    ∀ ρ ρ' p r q, createStatics cfgs ρ p = (r, q) → AgreesOn ρ ρ' p q →
      createStatics cfgs ρ' p = (r, q) := by
  induction cfgs with
  | nil =>
    intro ρ ρ' p r q h hAg
    rw [createStatics] at h ⊢
    exact h
  | cons c rest ih =>
    intro ρ ρ' p r q h hAg
    rw [createStatics] at h ⊢
    rcases h1 : mkStatic c ρ p with ⟨r1, p1⟩
    rw [h1] at h
    have hm1 := mkStatic_mono c ρ p r1 p1 h1
    have hp1q : p1 ≤ q := by
      cases r1 with
      | error e =>
        dsimp only at h
        have : q = p1 := (congrArg Prod.snd h).symm
        omega
      | ok o =>
        dsimp only at h
        rcases h2 : createStatics rest ρ p1 with ⟨r2, p2⟩
        rw [h2] at h
        have hm2 := createStatics_mono rest ρ p1 r2 p2 h2
        cases r2 <;>
          (dsimp only at h
           have : q = p2 := (congrArg Prod.snd h).symm
           omega)
    rw [mkStatic_ext c ρ ρ' p r1 p1 h1
      (agreesOn_mono _ _ _ _ _ _ hAg (Nat.le_refl p) hp1q)]
    cases r1 with
    | error e =>
      dsimp only at h ⊢
      exact h
    | ok o =>
      dsimp only at h ⊢
      rcases h2 : createStatics rest ρ p1 with ⟨r2, p2⟩
      rw [h2] at h
      have hq : q = p2 := by
        cases r2 <;>
          (dsimp only at h
           exact (congrArg Prod.snd h).symm)
      subst hq
      rw [ih ρ ρ' p1 r2 q h2 (agreesOn_mono _ _ _ _ _ _ hAg hm1 (Nat.le_refl q))]
      cases r2 <;>
        (dsimp only at h ⊢
         exact h)

lemma createIndeps_mono (cfgs : List ObjCfg) :
    ∀ ρ p r q, createIndeps cfgs ρ p = (r, q) → p ≤ q := by
  induction cfgs with
  | nil =>
    intro ρ p r q h
    rw [createIndeps] at h
    have : q = p := (congrArg Prod.snd h).symm
    omega
  | cons c rest ih =>
    intro ρ p r q h
    rw [createIndeps] at h
    rcases h1 : mkIndep c ρ p with ⟨r1, p1⟩
    rw [h1] at h
    have hm1 := mkIndep_mono c ρ p r1 p1 h1
    cases r1 with
    | error e =>
      dsimp only at h
      have : q = p1 := (congrArg Prod.snd h).symm
      omega
    | ok o =>
      dsimp only at h
      rcases h2 : createIndeps rest ρ p1 with ⟨r2, p2⟩
      rw [h2] at h
      have hm2 := ih ρ p1 r2 p2 h2
      cases r2 <;>
        (dsimp only at h
         have : q = p2 := (congrArg Prod.snd h).symm
         omega)

lemma createIndeps_ext (cfgs : List ObjCfg) :
    ∀ ρ ρ' p r q, createIndeps cfgs ρ p = (r, q) → AgreesOn ρ ρ' p q →
      createIndeps cfgs ρ' p = (r, q) := by
  induction cfgs with
  | nil =>
    intro ρ ρ' p r q h hAg
    rw [createIndeps] at h ⊢
    exact h
  | cons c rest ih =>
    intro ρ ρ' p r q h hAg
    rw [createIndeps] at h ⊢
    rcases h1 : mkIndep c ρ p with ⟨r1, p1⟩
    rw [h1] at h
    have hm1 := mkIndep_mono c ρ p r1 p1 h1
    have hp1q : p1 ≤ q := by
      cases r1 with
      | error e =>
        dsimp only at h
        have : q = p1 := (congrArg Prod.snd h).symm
        omega
      | ok o =>
        dsimp only at h
        rcases h2 : createIndeps rest ρ p1 with ⟨r2, p2⟩
        rw [h2] at h
        have hm2 := createIndeps_mono rest ρ p1 r2 p2 h2
        cases r2 <;>
          (dsimp only at h
           have : q = p2 := (congrArg Prod.snd h).symm
           omega)
    rw [mkIndep_ext c ρ ρ' p r1 p1 h1
      (agreesOn_mono _ _ _ _ _ _ hAg (Nat.le_refl p) hp1q)]
    cases r1 with
    | error e =>
      dsimp only at h ⊢
      exact h
    | ok o =>
      dsimp only at h ⊢
      rcases h2 : createIndeps rest ρ p1 with ⟨r2, p2⟩
      rw [h2] at h
      have hq : q = p2 := by
        cases r2 <;>
          (dsimp only at h
           exact (congrArg Prod.snd h).symm)
      subst hq
      rw [ih ρ ρ' p1 r2 q h2 (agreesOn_mono _ _ _ _ _ _ hAg hm1 (Nat.le_refl q))]
      cases r2 <;>
        (dsimp only at h ⊢
         exact h)

lemma createAgents_mono (cfgs : List ObjCfg) :
    ∀ ρ p r q, createAgents cfgs ρ p = (r, q) → p ≤ q := by
  induction cfgs with
  | nil =>
    intro ρ p r q h
    rw [createAgents] at h
    have : q = p := (congrArg Prod.snd h).symm
    omega
  | cons c rest ih =>
    intro ρ p r q h
    rw [createAgents] at h
    rcases h1 : mkAgent c ρ p with ⟨r1, p1⟩
    rw [h1] at h
    have hm1 := mkAgent_mono c ρ p r1 p1 h1
    cases r1 with
    | error e =>
      dsimp only at h
      have : q = p1 := (congrArg Prod.snd h).symm
      omega
    | ok o =>
      dsimp only at h
      rcases h2 : createAgents rest ρ p1 with ⟨r2, p2⟩
      rw [h2] at h
      have hm2 := ih ρ p1 r2 p2 h2
      cases r2 <;>
        (dsimp only at h
         have : q = p2 := (congrArg Prod.snd h).symm
         omega)

lemma createAgents_ext (cfgs : List ObjCfg) :
    ∀ ρ ρ' p r q, createAgents cfgs ρ p = (r, q) → AgreesOn ρ ρ' p q →
      createAgents cfgs ρ' p = (r, q) := by
  induction cfgs with
  | nil =>
    intro ρ ρ' p r q h hAg
    rw [createAgents] at h ⊢
    exact h
  | cons c rest ih =>
    intro ρ ρ' p r q h hAg
    rw [createAgents] at h ⊢
    rcases h1 : mkAgent c ρ p with ⟨r1, p1⟩
    rw [h1] at h
    have hm1 := mkAgent_mono c ρ p r1 p1 h1
    have hp1q : p1 ≤ q := by
      cases r1 with
      | error e =>
        dsimp only at h
        have : q = p1 := (congrArg Prod.snd h).symm
        omega
      | ok o =>
        dsimp only at h
        rcases h2 : createAgents rest ρ p1 with ⟨r2, p2⟩
        rw [h2] at h
        have hm2 := createAgents_mono rest ρ p1 r2 p2 h2
        cases r2 <;>
          (dsimp only at h
           have : q = p2 := (congrArg Prod.snd h).symm
           omega)
    rw [mkAgent_ext c ρ ρ' p r1 p1 h1
      (agreesOn_mono _ _ _ _ _ _ hAg (Nat.le_refl p) hp1q)]
    cases r1 with
    | error e =>
      dsimp only at h ⊢
      exact h
    | ok o =>
      dsimp only at h ⊢
      rcases h2 : createAgents rest ρ p1 with ⟨r2, p2⟩
      rw [h2] at h
      have hq : q = p2 := by
        cases r2 <;>
          (dsimp only at h
           exact (congrArg Prod.snd h).symm)
      subst hq
      rw [ih ρ ρ' p1 r2 q h2 (agreesOn_mono _ _ _ _ _ _ hAg hm1 (Nat.le_refl q))]
      cases r2 <;>
        (dsimp only at h ⊢
         exact h)

lemma createDeps_mono (cfgs : List ObjCfg) :
    ∀ ios ρ p r q, createDeps cfgs ios ρ p = (r, q) → p ≤ q := by
  induction cfgs with
  | nil =>
    intro ios ρ p r q h
    rw [createDeps] at h
    have : q = p := (congrArg Prod.snd h).symm
    omega
  | cons c rest ih =>
    intro ios ρ p r q h
    rw [createDeps] at h
    rcases h1 : mkDep c ios ρ p with ⟨r1, p1⟩
    rw [h1] at h
    have hm1 := mkDep_mono c ios ρ p r1 p1 h1
    cases r1 with
    | error e =>
      dsimp only at h
      have : q = p1 := (congrArg Prod.snd h).symm
      omega
    | ok pr =>
      obtain ⟨o, ios₁⟩ := pr
      dsimp only at h
      rcases h2 : createDeps rest ios₁ ρ p1 with ⟨r2, p2⟩
      rw [h2] at h
      have hm2 := ih ios₁ ρ p1 r2 p2 h2
      cases r2 with
      | error e =>
        dsimp only at h
        have : q = p2 := (congrArg Prod.snd h).symm
        omega
      | ok pr2 =>
        obtain ⟨os, ios₂⟩ := pr2
        dsimp only at h
        have : q = p2 := (congrArg Prod.snd h).symm
        omega

lemma createDeps_ext (cfgs : List ObjCfg) :
    ∀ ios ρ ρ' p r q, createDeps cfgs ios ρ p = (r, q) → AgreesOn ρ ρ' p q →
      createDeps cfgs ios ρ' p = (r, q) := by
  induction cfgs with
  | nil =>
    intro ios ρ ρ' p r q h hAg
    rw [createDeps] at h ⊢
    exact h
  | cons c rest ih =>
    intro ios ρ ρ' p r q h hAg
    rw [createDeps] at h ⊢
    rcases h1 : mkDep c ios ρ p with ⟨r1, p1⟩
    rw [h1] at h
    have hm1 := mkDep_mono c ios ρ p r1 p1 h1
    have hp1q : p1 ≤ q := by
      cases r1 with
      | error e =>
        dsimp only at h
        have : q = p1 := (congrArg Prod.snd h).symm
        omega
      | ok pr =>
        obtain ⟨o, ios₁⟩ := pr
        dsimp only at h
        rcases h2 : createDeps rest ios₁ ρ p1 with ⟨r2, p2⟩
        rw [h2] at h
        have hm2 := createDeps_mono rest ios₁ ρ p1 r2 p2 h2
        cases r2 with
        | error e =>
          dsimp only at h
          have : q = p2 := (congrArg Prod.snd h).symm
          omega
        | ok pr2 =>
          obtain ⟨os, ios₂⟩ := pr2
          dsimp only at h
          have : q = p2 := (congrArg Prod.snd h).symm
          omega
    rw [mkDep_ext c ios ρ ρ' p r1 p1 h1
      (agreesOn_mono _ _ _ _ _ _ hAg (Nat.le_refl p) hp1q)]
    cases r1 with
    | error e =>
      dsimp only at h ⊢
      exact h
    | ok pr =>
      obtain ⟨o, ios₁⟩ := pr
      dsimp only at h ⊢
      rcases h2 : createDeps rest ios₁ ρ p1 with ⟨r2, p2⟩
      rw [h2] at h
      have hq : q = p2 := by
        cases r2 with
        | error e =>
          dsimp only at h
          exact (congrArg Prod.snd h).symm
        | ok pr2 =>
          obtain ⟨os, ios₂⟩ := pr2
          dsimp only at h
          exact (congrArg Prod.snd h).symm
      subst hq
      rw [ih ios₁ ρ ρ' p1 r2 q h2
        (agreesOn_mono _ _ _ _ _ _ hAg hm1 (Nat.le_refl q))]
      cases r2 with
      | error e =>
        dsimp only at h ⊢
        exact h
      | ok pr2 =>
        obtain ⟨os, ios₂⟩ := pr2
        dsimp only at h ⊢
        exact h

lemma createObjects_mono (cfg : EnvConfig) (ρ : Nat → Frac) (p : Nat)
    (r : Except EnvError (List Obj × List Obj × List Obj × List Obj)) (q : Nat)
    (h : createObjects cfg ρ p = (r, q)) : p ≤ q := by
  rw [createObjects] at h
  rcases h1 : createStatics cfg.static_config ρ p with ⟨r1, p1⟩
  rw [h1] at h
  have hm1 := createStatics_mono _ ρ p r1 p1 h1
  cases r1 with
  | error e =>
    dsimp only at h
    have : q = p1 := (congrArg Prod.snd h).symm
    omega
  | ok statics =>
    dsimp only at h
    rcases h2 : createIndeps cfg.independent_config ρ p1 with ⟨r2, p2⟩
    rw [h2] at h
    have hm2 := createIndeps_mono _ ρ p1 r2 p2 h2
    cases r2 with
    | error e =>
      dsimp only at h
      have : q = p2 := (congrArg Prod.snd h).symm
      omega
    | ok indeps =>
      dsimp only at h
      rcases h3 : createDeps cfg.dependent_config indeps ρ p2 with ⟨r3, p3⟩
      rw [h3] at h
      have hm3 := createDeps_mono _ indeps ρ p2 r3 p3 h3
      cases r3 with
      | error e =>
        dsimp only at h
        have : q = p3 := (congrArg Prod.snd h).symm
        omega
      | ok pr3 =>
        obtain ⟨deps, indeps₁⟩ := pr3
        dsimp only at h
        rcases h4 : createAgents cfg.agent_config ρ p3 with ⟨r4, p4⟩
        rw [h4] at h
        have hm4 := createAgents_mono _ ρ p3 r4 p4 h4
        cases r4 with
        | error e =>
          dsimp only at h
          have : q = p4 := (congrArg Prod.snd h).symm
          omega
        | ok agents =>
          dsimp only at h
          split at h <;>
            (have : q = p4 := (congrArg Prod.snd h).symm
             omega)

lemma createObjects_ext (cfg : EnvConfig) (ρ ρ' : Nat → Frac) (p : Nat)
    (r : Except EnvError (List Obj × List Obj × List Obj × List Obj)) (q : Nat)
    (h : createObjects cfg ρ p = (r, q)) (hAg : AgreesOn ρ ρ' p q) :
    createObjects cfg ρ' p = (r, q) := by
  have hpq : p ≤ q := createObjects_mono cfg ρ p r q h
  rw [createObjects] at h ⊢
  rcases h1 : createStatics cfg.static_config ρ p with ⟨r1, p1⟩
  rw [h1] at h
  have hm1 := createStatics_mono _ ρ p r1 p1 h1
  have hp1q : p1 ≤ q := by
    cases r1 with
    | error e =>
      dsimp only at h
      have : q = p1 := (congrArg Prod.snd h).symm
      omega
    | ok statics =>
      dsimp only at h
      rcases h2 : createIndeps cfg.independent_config ρ p1 with ⟨r2, p2⟩
      rw [h2] at h
      have hm2 := createIndeps_mono _ ρ p1 r2 p2 h2
      cases r2 with
      | error e =>
        dsimp only at h
        have : q = p2 := (congrArg Prod.snd h).symm
        omega
      | ok indeps =>
        dsimp only at h
        rcases h3 : createDeps cfg.dependent_config indeps ρ p2 with ⟨r3, p3⟩
        rw [h3] at h
        have hm3 := createDeps_mono _ indeps ρ p2 r3 p3 h3
        cases r3 with
        | error e =>
          dsimp only at h
          have : q = p3 := (congrArg Prod.snd h).symm
          omega
        | ok pr3 =>
          obtain ⟨deps, indeps₁⟩ := pr3
          dsimp only at h
          rcases h4 : createAgents cfg.agent_config ρ p3 with ⟨r4, p4⟩
          rw [h4] at h
          have hm4 := createAgents_mono _ ρ p3 r4 p4 h4
          cases r4 with
          | error e =>
            dsimp only at h
            have : q = p4 := (congrArg Prod.snd h).symm
            omega
          | ok agents =>
            dsimp only at h
            split at h <;>
              (have : q = p4 := (congrArg Prod.snd h).symm
               omega)
  rw [createStatics_ext _ ρ ρ' p r1 p1 h1
    (agreesOn_mono _ _ _ _ _ _ hAg (Nat.le_refl p) hp1q)]
  cases r1 with
  | error e =>
    dsimp only at h ⊢
    exact h
  | ok statics =>
    dsimp only at h ⊢
    rcases h2 : createIndeps cfg.independent_config ρ p1 with ⟨r2, p2⟩
    rw [h2] at h
    have hm2 := createIndeps_mono _ ρ p1 r2 p2 h2
    have hp2q : p2 ≤ q := by
      cases r2 with
      | error e =>
        dsimp only at h
        have : q = p2 := (congrArg Prod.snd h).symm
        omega
      | ok indeps =>
        dsimp only at h
        rcases h3 : createDeps cfg.dependent_config indeps ρ p2 with ⟨r3, p3⟩
        rw [h3] at h
        have hm3 := createDeps_mono _ indeps ρ p2 r3 p3 h3
        cases r3 with
        | error e =>
          dsimp only at h
          have : q = p3 := (congrArg Prod.snd h).symm
          omega
        | ok pr3 =>
          obtain ⟨deps, indeps₁⟩ := pr3
          dsimp only at h
          rcases h4 : createAgents cfg.agent_config ρ p3 with ⟨r4, p4⟩
          rw [h4] at h
          have hm4 := createAgents_mono _ ρ p3 r4 p4 h4
          cases r4 with
          | error e =>
            dsimp only at h
            have : q = p4 := (congrArg Prod.snd h).symm
            omega
          | ok agents =>
            dsimp only at h
            split at h <;>
              (have : q = p4 := (congrArg Prod.snd h).symm
               omega)
    rw [createIndeps_ext _ ρ ρ' p1 r2 p2 h2
      (agreesOn_mono _ _ _ _ _ _ hAg hm1 hp2q)]
    cases r2 with
    | error e =>
      dsimp only at h ⊢
      exact h
    | ok indeps =>
      dsimp only at h ⊢
      rcases h3 : createDeps cfg.dependent_config indeps ρ p2 with ⟨r3, p3⟩
      rw [h3] at h
      have hm3 := createDeps_mono _ indeps ρ p2 r3 p3 h3
      have hp3q : p3 ≤ q := by
        cases r3 with
        | error e =>
          dsimp only at h
          have : q = p3 := (congrArg Prod.snd h).symm
          omega
        | ok pr3 =>
          obtain ⟨deps, indeps₁⟩ := pr3
          dsimp only at h
          rcases h4 : createAgents cfg.agent_config ρ p3 with ⟨r4, p4⟩
          rw [h4] at h
          have hm4 := createAgents_mono _ ρ p3 r4 p4 h4
          cases r4 with
          | error e =>
            dsimp only at h
            have : q = p4 := (congrArg Prod.snd h).symm
            omega
          | ok agents =>
            dsimp only at h
            split at h <;>
              (have : q = p4 := (congrArg Prod.snd h).symm
               omega)
      rw [createDeps_ext _ indeps ρ ρ' p2 r3 p3 h3
        (agreesOn_mono _ _ _ _ _ _ hAg (Nat.le_trans hm1 hm2) hp3q)]
      cases r3 with
      | error e =>
        dsimp only at h ⊢
        exact h
      | ok pr3 =>
        obtain ⟨deps, indeps₁⟩ := pr3
        dsimp only at h ⊢
        rcases h4 : createAgents cfg.agent_config ρ p3 with ⟨r4, p4⟩
        rw [h4] at h
        have hm4 := createAgents_mono _ ρ p3 r4 p4 h4
        have hq : q = p4 := by
          cases r4 with
          | error e =>
            dsimp only at h
            exact (congrArg Prod.snd h).symm
          | ok agents =>
            dsimp only at h
            split at h <;> exact (congrArg Prod.snd h).symm
        subst hq
        rw [createAgents_ext _ ρ ρ' p3 r4 q h4
          (agreesOn_mono _ _ _ _ _ _ hAg
            (Nat.le_trans (Nat.le_trans hm1 hm2) hm3) (Nat.le_refl q))]
        cases r4 with
        | error e =>
          dsimp only at h ⊢
          exact h
        | ok agents =>
          dsimp only at h ⊢
          exact h

lemma shuffleAux_mono (i : Nat) :
    ∀ l ρ p r q, shuffleAux l i ρ p = (r, q) → p ≤ q := by
  induction i with
  | zero =>
    intro l ρ p r q h
    rw [shuffleAux] at h
    have : q = p := (congrArg Prod.snd h).symm
    omega
  | succ i ih =>
    intro l ρ p r q h
    rw [shuffleAux] at h
    dsimp only [draw] at h
    have := ih _ ρ (p + 1) r q h
    omega

lemma shuffleAux_ext (i : Nat) :
    ∀ l ρ ρ' p r q, shuffleAux l i ρ p = (r, q) → AgreesOn ρ ρ' p q →
      shuffleAux l i ρ' p = (r, q) := by
  induction i with
  | zero =>
    intro l ρ ρ' p r q h hAg
    rw [shuffleAux] at h ⊢
    exact h
  | succ i ih =>
    intro l ρ ρ' p r q h hAg
    rw [shuffleAux] at h ⊢
    dsimp only [draw] at h ⊢
    have hm := shuffleAux_mono i _ ρ (p + 1) r q h
    have hv : ρ p = ρ' p := hAg p (Nat.le_refl p) (by omega)
    rw [← hv]
    exact ih _ ρ ρ' (p + 1) r q h
      (agreesOn_mono _ _ _ _ _ _ hAg (Nat.le_succ p) (Nat.le_refl q))

lemma shuffleList_mono (l : List Quad) (ρ : Nat → Frac) (p : Nat) (r : List Quad)
    (q : Nat) (h : shuffleList l ρ p = (r, q)) : p ≤ q := by
  rw [shuffleList] at h
  rcases hl : l.length with - | n
  · rw [hl] at h
    dsimp only at h
    have : q = p := (congrArg Prod.snd h).symm
    omega
  · rw [hl] at h
    dsimp only at h
    exact shuffleAux_mono n l ρ p r q h

lemma shuffleList_ext (l : List Quad) (ρ ρ' : Nat → Frac) (p : Nat) (r : List Quad)
    (q : Nat) (h : shuffleList l ρ p = (r, q)) (hAg : AgreesOn ρ ρ' p q) :
    shuffleList l ρ' p = (r, q) := by
  rw [shuffleList] at h ⊢
  rcases hl : l.length with - | n
  · rw [hl] at h
    exact h
  · rw [hl] at h
    dsimp only at h ⊢
    exact shuffleAux_ext n l ρ ρ' p r q h hAg

lemma getObs_mono (qprob : Frac) (rz : Bool) (st : EnvState) (ρ : Nat → Frac)
    (p : Nat) (r : Except EnvError (Obs × EnvState)) (q : Nat)
    (h : get_observations_and_question qprob rz st ρ p = (r, q)) : p ≤ q := by
  rw [get_observations_and_question] at h
  cases hag : st.agents with
  | nil =>
    simp only [hag] at h
    have : q = p := (congrArg Prod.snd h).symm
    omega
  | cons agent rest =>
    simp only [hag] at h
    cases hvl : visibleLoop agent.location (computeHiddenGlobalState st) with
    | error e =>
      simp only [hvl] at h
      have : q = p := (congrArg Prod.snd h).symm
      omega
    | ok obsRoom =>
      simp only [hvl] at h
      split at h
      · have : q = p := (congrArg Prod.snd h).symm
        omega
      · rcases hs : sampleWeighted (questionCandidates st) ρ p with ⟨name, p₁⟩
        have hm1 := sampleWeighted_mono _ ρ p name p₁ hs
        simp only [hs] at h
        cases hf : findObjectByString st name with
        | none =>
          simp only [hf] at h
          have : q = p₁ := (congrArg Prod.snd h).symm
          omega
        | some objChosen =>
          simp only [hf, draw] at h
          cases rz with
          | false =>
            simp only [Bool.false_eq_true, if_false] at h
            have : q = p₁ + 1 := (congrArg Prod.snd h).symm
            omega
          | true =>
            simp only [if_true] at h
            rcases hsh : shuffleList obsRoom ρ (p₁ + 1) with ⟨l₂, p₃⟩
            have hm2 := shuffleList_mono obsRoom ρ (p₁ + 1) l₂ p₃ hsh
            simp only [hsh] at h
            have : q = p₃ := (congrArg Prod.snd h).symm
            omega

lemma getObs_ext (qprob : Frac) (rz : Bool) (st : EnvState) (ρ ρ' : Nat → Frac)
    (p : Nat) (r : Except EnvError (Obs × EnvState)) (q : Nat)
    (h : get_observations_and_question qprob rz st ρ p = (r, q))
    (hAg : AgreesOn ρ ρ' p q) :
    get_observations_and_question qprob rz st ρ' p = (r, q) := by
  rw [get_observations_and_question] at h ⊢
  cases hag : st.agents with
  | nil =>
    simp only [hag] at h ⊢
    exact h
  | cons agent rest =>
    simp only [hag] at h ⊢
    cases hvl : visibleLoop agent.location (computeHiddenGlobalState st) with
    | error e =>
      simp only [hvl] at h ⊢
      exact h
    | ok obsRoom =>
      simp only [hvl] at h ⊢
      split at h
      · rename_i hc
        rw [if_pos hc]
        exact h
      · rename_i hc
        rw [if_neg hc]
        rcases hs : sampleWeighted (questionCandidates st) ρ p with ⟨name, p₁⟩
        have hm1 := sampleWeighted_mono _ ρ p name p₁ hs
        simp only [hs] at h
        have hp1q : p₁ ≤ q := by
          cases hf : findObjectByString st name with
          | none =>
            simp only [hf] at h
            have : q = p₁ := (congrArg Prod.snd h).symm
            omega
          | some objChosen =>
            simp only [hf, draw] at h
            cases rz with
            | false =>
              simp only [Bool.false_eq_true, if_false] at h
              have : q = p₁ + 1 := (congrArg Prod.snd h).symm
              omega
            | true =>
              simp only [if_true] at h
              rcases hsh : shuffleList obsRoom ρ (p₁ + 1) with ⟨l₂, p₃⟩
              have hm2 := shuffleList_mono obsRoom ρ (p₁ + 1) l₂ p₃ hsh
              simp only [hsh] at h
              have : q = p₃ := (congrArg Prod.snd h).symm
              omega
        rw [sampleWeighted_ext _ ρ ρ' p name p₁ hs
          (agreesOn_mono _ _ _ _ _ _ hAg (Nat.le_refl p) hp1q)]
        cases hf : findObjectByString st name with
        | none =>
          simp only [hf] at h ⊢
          exact h
        | some objChosen =>
          simp only [hf, draw] at h ⊢
          cases rz with
          | false =>
            simp only [Bool.false_eq_true, if_false] at h ⊢
            have hq : q = p₁ + 1 := (congrArg Prod.snd h).symm
            have hv : ρ p₁ = ρ' p₁ := hAg p₁ hm1 (by omega)
            simp only [hv] at h
            exact h
          | true =>
            simp only [if_true] at h ⊢
            rcases hsh : shuffleList obsRoom ρ (p₁ + 1) with ⟨l₂, p₃⟩
            have hm2 := shuffleList_mono obsRoom ρ (p₁ + 1) l₂ p₃ hsh
            simp only [hsh] at h
            have hq : q = p₃ := (congrArg Prod.snd h).symm
            subst hq
            have hv : ρ p₁ = ρ' p₁ := hAg p₁ hm1 (by omega)
            simp only [hv] at h
            rw [shuffleList_ext obsRoom ρ ρ' (p₁ + 1) l₂ q hsh
              (agreesOn_mono _ _ _ _ _ _ hAg (by omega) (Nat.le_refl q))]
            exact h

lemma resetE_mono (cfg : EnvConfig) (ρ : Nat → Frac) (p : Nat)
    (r : Except EnvError (Obs × EnvState)) (q : Nat)
    (h : resetE cfg ρ p = (r, q)) : p ≤ q := by
  rw [resetE] at h
  cases hr : createRooms cfg.room_config with
  | error e =>
    simp only [hr] at h
    have : q = p := (congrArg Prod.snd h).symm
    omega
  | ok rooms =>
    simp only [hr] at h
    rcases h1 : createObjects cfg ρ p with ⟨r1, p1⟩
    rw [h1] at h
    have hm1 := createObjects_mono cfg ρ p r1 p1 h1
    cases r1 with
    | error e =>
      dsimp only at h
      have : q = p1 := (congrArg Prod.snd h).symm
      omega
    | ok pr =>
      obtain ⟨statics, indeps, deps, agents⟩ := pr
      dsimp only at h
      have hm2 := getObs_mono cfg.question_prob cfg.randomize_observations _ ρ p1 r q h
      omega

/-- Claim C8 (amended): `reset` is a deterministic function of the draws it
consumes: whenever a second stream agrees with the first on the consumed
window of positions, `reset` produces the identical observation and state
and leaves the cursor at the same position.  In particular two environments
constructed with the same seed (same stream, cursor 0) yield identical first
resets, whereas the second of two successive resets on one environment reads
a later window of the same stream and need not match the first (see the
counterexample). -/
theorem reset_deterministic_on_consumed_draws (cfg : EnvConfig) (ρ ρ' : Nat → Frac)
    (p : Nat) (r : Except EnvError (Obs × EnvState)) (q : Nat)
    (h : resetE cfg ρ p = (r, q)) (hAg : AgreesOn ρ ρ' p q) :
    resetE cfg ρ' p = (r, q) := by
  have hpq : p ≤ q := resetE_mono cfg ρ p r q h
  rw [resetE] at h ⊢
  cases hr : createRooms cfg.room_config with
  | error e =>
    simp only [hr] at h ⊢
    exact h
  | ok rooms =>
    simp only [hr] at h ⊢
    rcases h1 : createObjects cfg ρ p with ⟨r1, p1⟩
    rw [h1] at h
    have hm1 := createObjects_mono cfg ρ p r1 p1 h1
    have hp1q : p1 ≤ q := by
      cases r1 with
      | error e =>
        dsimp only at h
        have : q = p1 := (congrArg Prod.snd h).symm
        omega
      | ok pr =>
        obtain ⟨statics, indeps, deps, agents⟩ := pr
        dsimp only at h
        exact getObs_mono cfg.question_prob cfg.randomize_observations _ ρ p1 r q h
    rw [createObjects_ext cfg ρ ρ' p r1 p1 h1
      (agreesOn_mono _ _ _ _ _ _ hAg (Nat.le_refl p) hp1q)]
    cases r1 with
    | error e =>
      dsimp only at h ⊢
      exact h
    | ok pr =>
      obtain ⟨statics, indeps, deps, agents⟩ := pr
      dsimp only at h ⊢
      exact getObs_ext cfg.question_prob cfg.randomize_observations _ ρ ρ' p1 r q h
        (agreesOn_mono _ _ _ _ _ _ hAg hm1 (Nat.le_refl q))

/-- Stream for the reset counterexample: the fifth draw differs from zero. -/
def rhoC : Nat → Frac := fun i => if i = 4 then ⟨9, 10⟩ else ⟨0, 1⟩

def cfgC : EnvConfig :=
  { room_config := [⟨"a", "wall", "wall", "wall", "wall"⟩,
                    ⟨"b", "wall", "wall", "wall", "wall"⟩],
    static_config := [⟨"sobj", [("a", ⟨1, 2⟩), ("b", ⟨1, 2⟩)], TransCfg.null, ⟨1, 1⟩⟩],
    independent_config := [], dependent_config := [],
    agent_config := [⟨"agent", [("a", ⟨1, 1⟩)], TransCfg.null, ⟨0, 1⟩⟩],
    question_prob := ⟨1, 1⟩, terminates_at := 3, randomize_observations := false,
    reward_correct := 1, reward_wrong := -1, reward_part := 0,
    make_everything_static := false }

/-- Counterexample for claim C8 as stated: with the environment's single
stream seeded once, two successive `reset` calls (no intervening step)
consume successive windows of the stream and here produce different first
observations and different initial locations for the static object. -/
theorem reset_twice_not_idempotent :
    ((resetE cfgC rhoC 0).1.toOption.isSome = true) ∧
    ((resetE cfgC rhoC (resetE cfgC rhoC 0).2).1.toOption.isSome = true) ∧
    ((resetE cfgC rhoC 0).1.toOption.map (fun x => x.1) ≠
      (resetE cfgC rhoC (resetE cfgC rhoC 0).2).1.toOption.map (fun x => x.1)) ∧
    ((resetE cfgC rhoC 0).1.toOption.map (fun x => x.2.statics.map Obj.location) ≠
      (resetE cfgC rhoC (resetE cfgC rhoC 0).2).1.toOption.map
        (fun x => x.2.statics.map Obj.location)) :=
  ⟨by rfl, by rfl, by decide, by decide⟩

/-- A second stream that agrees with `rhoC` exactly on the window the first
reset consumes. -/
def rhoC' : Nat → Frac := fun i => if i < 4 then rhoC i else ⟨7, 9⟩

/-- Witness for the amended claim C8: the first reset consumes the window
`[0, 4)`, and any stream agreeing there produces the identical reset. -/
theorem reset_deterministic_witness :
    (resetE cfgC rhoC 0 = ((resetE cfgC rhoC 0).1, 4) ∧ AgreesOn rhoC rhoC' 0 4) ∧
    resetE cfgC rhoC' 0 = ((resetE cfgC rhoC 0).1, 4) :=
  ⟨⟨by rfl, fun i _ hi => (if_pos hi).symm⟩,
   reset_deterministic_on_consumed_draws cfgC rhoC rhoC' 0 _ 4 (by rfl)
     (fun i _ hi => (if_pos hi).symm)⟩
